import Mathlib

/-! The `com` request/response engine: framing codec and connection protocol.

A shallow embedding of `com.go`.  Byte slices are lists of bytes, Go's `uint` and
`uint64` are natural numbers reduced modulo `2 ^ 64` where the program can wrap, a
connection is an explicit state that every `Read`, `Write` and `Close` threads
through, and the functions of the standard library the program calls
(`strconv.ParseUint`, `strconv.FormatUint`, `fmt.Sprintf("%020d", _)`,
`bytes.Join`, `make`) are transcribed for the arguments the program passes them.
-/

namespace Com

/-! ## Bytes, errors and results -/

/-- A Go `byte`. -/
abbrev Byte := UInt8

/-- Width in bits of Go's `int` and `uint` (`strconv.IntSize`) on a 64-bit platform. -/
def IntSize : Nat := 64

/-- The largest `uint64`. -/
def maxUint64 : Nat := 2 ^ 64 - 1

/-- The runtime's bound on the size of one allocation (`maxAlloc`, 48 address bits on
64-bit Linux): `make([]byte, n)` panics above it. -/
def maxAlloc : Nat := 2 ^ 48

/-- Error values the program can observe.  `New` is `errors.New(text)`; it also stands
for any error value supplied by a collaborator (middleware, dialler, transport). -/
inductive GoError where
  | EOF
  | ErrSyntax (fn : String) (num : List Byte)
  | ErrRange (fn : String) (num : List Byte)
  | New (text : List Byte)
  deriving DecidableEq, Repr

/-- Outcome of a function that returns `(value, error)` and may also panic. -/
inductive Result (α : Type) where
  | ok (a : α)
  | err (e : GoError)
  | panic (msg : String)
  deriving DecidableEq, Repr

/-! ## `strconv` and `fmt` -/

/-- The byte of the decimal digit `d`: `'0' + d`. -/
def digitByte (d : Nat) : Byte := UInt8.ofNat (48 + d)

/-- The digit loop of `strconv.formatBits` for base 10: digits are produced from the
least significant end and pushed in front of `acc`.  The first argument bounds the
number of iterations; `u` itself is always enough. -/
def formatBits : Nat → Nat → List Byte → List Byte
  | 0, u, acc => digitByte (u % 10) :: acc
  | fuel + 1, u, acc =>
    if 10 ≤ u then formatBits fuel (u / 10) (digitByte (u % 10) :: acc)
    else digitByte u :: acc

/-- `strconv.FormatUint(u, 10)`. -/
def FormatUint (u : Nat) : List Byte := formatBits u u []

/-- `fmt.Sprintf("%020d", n)` for an unsigned `n`: the decimal digits of `n`, padded on
the left with `'0'` up to a width of 20 (never truncated). -/
def Sprintf020d (n : Nat) : List Byte :=
  let ds := formatBits n n []
  List.replicate (20 - ds.length) (48 : Byte) ++ ds

/-- `strconv.lower`: `c | ('x' - 'X')`. -/
def lower (c : Byte) : Byte := c ||| 32

/-- The value `strconv.ParseUint` gives the character `c`, if it is a digit or a letter. -/
def digitValue (c : Byte) : Option Nat :=
  if 48 ≤ c.toNat ∧ c.toNat ≤ 57 then some (c.toNat - 48)
  else if 97 ≤ (lower c).toNat ∧ (lower c).toNat ≤ 122 then some ((lower c).toNat - 97 + 10)
  else none

/-- Cutoff of `strconv.ParseUint` for base 10: `maxUint64/10 + 1`. -/
def cutoff : Nat := maxUint64 / 10 + 1

/-- The character loop of `strconv.ParseUint(s0, 10, _)` with accumulator `n`. -/
def parseUintLoop (maxVal : Nat) (s0 : List Byte) : List Byte → Nat → Except GoError Nat
  | [], n => .ok n
  | c :: cs, n =>
    match digitValue c with
    | none => .error (.ErrSyntax "ParseUint" s0)
    | some d =>
      if 10 ≤ d then .error (.ErrSyntax "ParseUint" s0)
      else if cutoff ≤ n then .error (.ErrRange "ParseUint" s0)
      else
        let n10 := (n * 10) % 2 ^ 64
        let n1 := (n10 + d) % 2 ^ 64
        if n1 < n10 ∨ maxVal < n1 then .error (.ErrRange "ParseUint" s0)
        else parseUintLoop maxVal s0 cs n1

/-- `strconv.ParseUint(s, 10, bitSize)` for `bitSize ≤ 64`; `bitSize = 0` means `IntSize`. -/
def ParseUint (s : List Byte) (bitSize : Nat) : Except GoError Nat :=
  if s = [] then .error (.ErrSyntax "ParseUint" s)
  else
    let bits := if bitSize = 0 then IntSize else bitSize
    let maxVal := ((2 ^ bits) % 2 ^ 64 + 2 ^ 64 - 1) % 2 ^ 64
    parseUintLoop maxVal s s 0

/-- `bytes.Join(s, sep)`. -/
def bytesJoin : List (List Byte) → List Byte → List Byte
  | [], _ => []
  | [a], _ => a
  | a :: b :: rest, sep => a ++ sep ++ bytesJoin (b :: rest) sep

/-! ## Packages -/

/-- The package-level variable `sep`. -/
def sep : List Byte := []

/-- `Type`, a `uint`. -/
abbrev PType := Nat

/-- `TypeDat`. -/
def TypeDat : PType := 1

/-- `TypeErr`. -/
def TypeErr : PType := 2

/-- `Type.IsDat`. -/
def PType.IsDat (t : PType) : Bool := t == TypeDat

/-- `Type.IsErr`. -/
def PType.IsErr (t : PType) : Bool := t == TypeErr

/-- `Package`; the field `Type` is spelled `Typ`. -/
structure Package where
  Typ : PType
  Data : List Byte
  deriving DecidableEq, Repr

/-- `newPackage`. -/
def newPackage (t : PType) (d : List Byte) : Package := ⟨t, d⟩

/-- `Package.Error`. -/
def Package.Error (p : Package) : Option GoError :=
  if p.Typ.IsErr then some (.New p.Data) else none

/-- `Package.Size`: `uint64(len(p.Data) + 1)`. -/
def Package.Size (p : Package) : Nat := (p.Data.length + 1) % 2 ^ 64

/-- `Package.SizeBytes`. -/
def Package.SizeBytes (p : Package) : List Byte := Sprintf020d p.Size

/-- `Package.TypeBytes`. -/
def Package.TypeBytes (p : Package) : List Byte := FormatUint (p.Typ % 2 ^ 64)

/-- `Package.Bytes`. -/
def Package.Bytes (p : Package) : List Byte :=
  bytesJoin [p.SizeBytes, p.TypeBytes, p.Data] sep

/-! ## Connections -/

/-- One thing a `Read` on a connection can meet: a run of bytes that arrived together,
or a transport failure.  A connection with nothing left to meet has been closed by
the remote end. -/
inductive ReadEvent where
  | data (bs : List Byte)
  | fail (e : GoError)
  deriving DecidableEq, Repr

/-- A `net.Conn`, as seen from one end.  `incoming` is what reads will meet, in order;
`peer` is what the remote end sends back for bytes written here; `writeErr` and
`closeErr` make `Write` and `Close` fail; `outgoing` collects the bytes written. -/
structure Conn where
  incoming : List ReadEvent
  peer : List Byte → List ReadEvent
  writeErr : Option GoError
  closeErr : Option GoError
  outgoing : List Byte

/-- What a `Read(p)` leaves behind: the buffer `p` after the call, and the returned
count and error. -/
structure ReadOut where
  buf : List Byte
  n : Nat
  err : Option GoError
  deriving DecidableEq, Repr

/-- `conn.Read(p)`: copies at most `len(p)` bytes of the first run into the front of `p`
and returns after that one run even when `p` is not full.  A zero-length `p` returns
`0, nil` at once; a closed stream returns `io.EOF`. -/
def Conn.Read (c : Conn) (p : List Byte) : ReadOut × Conn :=
  if p.length = 0 then (⟨p, 0, none⟩, c)
  else
    match c.incoming with
    | [] => (⟨p, 0, some .EOF⟩, c)
    | .fail e :: rest => (⟨p, 0, some e⟩, { c with incoming := rest })
    | .data bs :: rest =>
      if bs.length ≤ p.length then
        (⟨bs ++ p.drop bs.length, bs.length, none⟩, { c with incoming := rest })
      else
        (⟨bs.take p.length, p.length, none⟩,
          { c with incoming := .data (bs.drop p.length) :: rest })

/-- `conn.Write(b)`: on success the bytes leave, and the remote end's answer to them
joins the incoming stream. -/
def Conn.Write (c : Conn) (b : List Byte) : Option GoError × Conn :=
  match c.writeErr with
  | some e => (some e, c)
  | none => (none, { c with outgoing := c.outgoing ++ b, incoming := c.incoming ++ c.peer b })

/-- `conn.Close()`. -/
def Conn.Close (c : Conn) : Option GoError := c.closeErr

/-- `make([]byte, n)`: `n` zero bytes. -/
def make (n : Nat) : List Byte := List.replicate n 0

/-- `parsePackage`.  The counts returned by the two reads are dropped, as in the source;
`make([]byte, lu)` panics when `lu` exceeds what can be allocated, and `dat[:1]` panics
on a block of capacity zero. -/
def parsePackage (conn : Conn) : Result Package × Conn :=
  let l := make 20
  let (r1, conn1) := conn.Read l
  match r1.err with
  | some e => (.err e, conn1)
  | none =>
    match ParseUint r1.buf 0 with
    | .error e => (.err e, conn1)
    | .ok lu =>
      if maxAlloc < lu then (.panic "makeslice: len out of range", conn1)
      else
        let (r2, conn2) := conn1.Read (make lu)
        match r2.err with
        | some e => (.err e, conn2)
        | none =>
          let dat := r2.buf
          if dat.length < 1 then (.panic "slice bounds out of range [:1] with capacity 0", conn2)
          else
            let t := dat.take 1
            match ParseUint t 0 with
            | .error e => (.err e, conn2)
            | .ok tp => (.ok (newPackage (tp % 2 ^ IntSize) (dat.drop 1)), conn2)

/-! ## Server and client -/

/-- `Handler`.  The error a handler returns is carried as the text of its `Error()`,
the only thing the server asks of it. -/
abbrev Handler := Package → List Byte × Option (List Byte)

/-- `Middleware`. -/
abbrev Middleware := Package → Option GoError

/-- `networking`.  The `ErrHandler` field is not a field here: each call of it is
recorded as an `Event.errHandler`. -/
structure networking where
  network : String
  address : String
  middleware : List Middleware

/-- `newNetworking`. -/
def newNetworking (network address : String) : networking :=
  { network := network, address := address, middleware := [] }

/-- `networking.RegisterMiddleware`. -/
def networking.RegisterMiddleware (n : networking) (handlers : List Middleware) : networking :=
  handlers.foldl (fun acc m => { acc with middleware := acc.middleware ++ [m] }) n

/-- `Server`.  The `handler` field is nil until `Listen` sets it. -/
structure Server where
  networking : networking
  handler : Option Handler

/-- `Client`. -/
structure Client where
  networking : networking

/-- What `Server.handle` and `Client.Request` do that is visible from outside, in
order: a middleware call (with its index in the chain), the handler call, a
`conn.Write`, a call of the error handler, `conn.Close`, and a panic. -/
inductive Event where
  | middleware (i : Nat) (p : Package)
  | handler (p : Package)
  | write (b : List Byte)
  | errHandler (e : GoError)
  | close
  | panic (msg : String)
  deriving DecidableEq, Repr

/-- The deferred `conn.Close()`, with its report to the error handler. -/
def closeEvents (conn : Conn) : List Event :=
  match conn.Close with
  | some e => [.close, .errHandler e]
  | none => [.close]

/-- The middleware loop of `Server.handle`, from chain index `i` on: the calls made, and
the first failure if there is one. -/
def runMiddleware (p : Package) : List Middleware → Nat → List Event × Option GoError
  | [], _ => ([], none)
  | m :: rest, i =>
    match m p with
    | some e => ([.middleware i p], some e)
    | none =>
      let r := runMiddleware p rest (i + 1)
      (.middleware i p :: r.1, r.2)

/-- `Server.handle`: the events of one connection and its final state.  Calling a nil
handler panics; the deferred close runs first. -/
def Server.handle (s : Server) (conn : Conn) : List Event × Conn :=
  match parsePackage conn with
  | (.panic msg, conn1) => (closeEvents conn1 ++ [.panic msg], conn1)
  | (.err e, conn1) => (.errHandler e :: closeEvents conn1, conn1)
  | (.ok pReq, conn1) =>
    match runMiddleware pReq s.networking.middleware 0 with
    | (evs, some e) => (evs ++ .errHandler e :: closeEvents conn1, conn1)
    | (evs, none) =>
      match s.handler with
      | none =>
        (evs ++ closeEvents conn1 ++
          [.panic "invalid memory address or nil pointer dereference"], conn1)
      | some h =>
        let (b, err) := h pReq
        let pRes := match err with
          | some text => newPackage TypeErr text
          | none => newPackage TypeDat b
        let (werr, conn2) := conn1.Write pRes.Bytes
        let report := match werr with
          | some e => [Event.errHandler e]
          | none => []
        (evs ++ [.handler pReq, .write pRes.Bytes] ++ report ++ closeEvents conn2, conn2)

/-- `net.Dial`, as the environment provides it. -/
abbrev Dialer := String → String → Except GoError Conn

/-- `Client.Request`.  `Result.err e` is the return `(nil, e)`. -/
def Client.Request (c : Client) (dial : Dialer) (data : List Byte) :
    Result (List Byte) × List Event :=
  match dial c.networking.network c.networking.address with
  | .error e => (.err e, [])
  | .ok conn =>
    let pReq := newPackage TypeDat data
    match conn.Write pReq.Bytes with
    | (some e, conn1) => (.err e, .write pReq.Bytes :: closeEvents conn1)
    | (none, conn1) =>
      match parsePackage conn1 with
      | (.panic msg, conn2) => (.panic msg, .write pReq.Bytes :: closeEvents conn2 ++ [.panic msg])
      | (.err e, conn2) => (.err e, .write pReq.Bytes :: closeEvents conn2)
      | (.ok pRes, conn2) =>
        match pRes.Error with
        | some e => (.err e, .write pReq.Bytes :: closeEvents conn2)
        | none => (.ok pRes.Data, .write pReq.Bytes :: closeEvents conn2)

/-- `NewServer`. -/
def NewServer (network address : String) : Server :=
  { networking := newNetworking network address, handler := none }

/-- `NewClient`. -/
def NewClient (network address : String) : Client :=
  { networking := newNetworking network address }

/-- What one call of `listener.Accept()` returns. -/
inductive AcceptResult where
  | conn (c : Conn)
  | fail (e : GoError)

/-- A `net.Listener`: what its successive `Accept` calls return (after the last of them
`Accept` blocks), and what `Close` returns. -/
structure Listener where
  accepts : List AcceptResult
  closeErr : Option GoError

/-- `net.Listen`, as the environment provides it. -/
abbrev ListenFn := String → String → Except GoError Listener

/-- What `Server.Listen` does that is visible from outside: a call of the error handler,
the start of a goroutine running `handle` on the `i`-th accepted result (with the events
of that run), and `listener.Close()`. -/
inductive ListenEvent where
  | errHandler (e : GoError)
  | go (i : Nat) (run : List Event)
  | listenerClose
  deriving DecidableEq, Repr

/-- Where a call of `Server.Listen` stands: it has returned an error, or it is still in
its accept loop. -/
inductive ListenOutcome where
  | returned (e : GoError)
  | accepting
  deriving DecidableEq, Repr

/-- The `for` loop of `Server.Listen` over the results of its `Accept` calls, `i` being
the number of calls made before.  Either branch of the body goes on to the next call. -/
def acceptLoop (s : Server) : List AcceptResult → Nat → List ListenEvent
  | [], _ => []
  | .fail e :: rest, i => .errHandler e :: acceptLoop s rest (i + 1)
  | .conn c :: rest, i => .go i (s.handle c).1 :: acceptLoop s rest (i + 1)

/-- A run of `Server.Listen`: the server with its handler set, the events, and where the
call stands. -/
structure ListenRun where
  server : Server
  events : List ListenEvent
  outcome : ListenOutcome

/-- `Server.Listen`.  A failed bind returns its error.  After a successful bind the
body is the accept loop, which has no `return` and no `break`: the call never comes
back, and the deferred `listener.Close()` is never reached. -/
def Server.Listen (s : Server) (listen : ListenFn) (handler : Option Handler) : ListenRun :=
  let s1 : Server := { s with handler := handler }
  match listen s1.networking.network s1.networking.address with
  | .error e => ⟨s1, [], .returned e⟩
  | .ok listener => ⟨s1, acceptLoop s1 listener.accepts 0, .accepting⟩

/-! ## One client talking to one server over a reliable stream -/

/-- A reliable stream hands the bytes of one write to the reader as one run, so that
every read is filled in full; when nothing was written the reader meets the close. -/
def deliver (b : List Byte) : List ReadEvent := if b = [] then [] else [.data b]

/-- The server's end of a connection on which `req` is arriving. -/
def serverConn (req : List ReadEvent) : Conn :=
  { incoming := req, peer := fun _ => [], writeErr := none, closeErr := none, outgoing := [] }

/-- The server end as the client's peer: the request bytes are delivered to
`Server.handle`, and what it wrote is delivered back. -/
def serverPeer (s : Server) (written : List Byte) : List ReadEvent :=
  deliver (s.handle (serverConn (deliver written))).2.outgoing

/-- A dialler that always reaches the server `s`. -/
def dialServer (s : Server) : Dialer := fun _ _ =>
  .ok { incoming := [], peer := serverPeer s, writeErr := none, closeErr := none, outgoing := [] }

/-- Bytes of an ASCII string literal. -/
def ascii (s : String) : List Byte := s.data.map (fun ch => UInt8.ofNat ch.toNat)

deriving instance DecidableEq for Except


/-! ## Notions the properties are stated with -/

/-- An ASCII decimal digit, `'0'` to `'9'`. -/
def isDigit (c : Byte) : Prop := 48 ≤ c.toNat ∧ c.toNat ≤ 57

instance (c : Byte) : Decidable (isDigit c) := by unfold isDigit; infer_instance

/-- One step of reading a base-10 numeral from the left. -/
def decStep (a : Nat) (c : Byte) : Nat := a * 10 + (c.toNat - 48)

/-- The unsigned base-10 integer a run of digits denotes. -/
def decVal (s : List Byte) : Nat := s.foldl decStep 0

/-- The bytes a stream carries before it closes or fails, whatever runs they arrive in. -/
def streamBytes : List ReadEvent → List Byte
  | [] => []
  | .data bs :: rest => bs ++ streamBytes rest
  | .fail _ :: _ => []

/-- The chain index of a middleware call. -/
def Event.middlewareIndex : Event → Option Nat
  | .middleware i _ => some i
  | _ => none

/-- Whether the event is a call of the handler. -/
def Event.isHandler : Event → Bool
  | .handler _ => true
  | _ => false

/-- Whether the event is a `conn.Write`. -/
def Event.isWrite : Event → Bool
  | .write _ => true
  | _ => false

/-- The response package `Server.handle` builds from what the handler returned. -/
def responseOf (r : List Byte × Option (List Byte)) : Package :=
  match r.2 with
  | some text => newPackage TypeErr text
  | none => newPackage TypeDat r.1

/-- The text `Error()` returns.  `quote` is `strconv.Quote`, which the text of a
`strconv` error passes the offending input through. -/
def GoError.Error (quote : List Byte → List Byte) : GoError → List Byte
  | .EOF => ascii "EOF"
  | .ErrSyntax fn num =>
    ascii "strconv." ++ ascii fn ++ ascii ": parsing " ++ quote num ++ ascii ": invalid syntax"
  | .ErrRange fn num =>
    ascii "strconv." ++ ascii fn ++ ascii ": parsing " ++ quote num ++
      ascii ": value out of range"
  | .New text => text

/-- The error an event hands to the error handler. -/
def Event.report : Event → Option GoError
  | .errHandler e => some e
  | _ => none

/-- The error of the first middleware of the chain, in list order, that fails on `p`. -/
def firstFailure (ms : List Middleware) (p : Package) : Option GoError :=
  ms.findSome? (fun m => m p)

/-- The error a `Listen` event hands to the error handler. -/
def ListenEvent.report : ListenEvent → Option GoError
  | .errHandler e => some e
  | _ => none

/-- The accept failures among the results of `Accept`, in order. -/
def acceptFailures : List AcceptResult → List GoError
  | [] => []
  | .fail e :: rest => e :: acceptFailures rest
  | .conn _ :: rest => acceptFailures rest

/-- The number of connections among the results of `Accept`. -/
def acceptedCount : List AcceptResult → Nat
  | [] => 0
  | .fail _ :: rest => acceptedCount rest
  | .conn _ :: rest => acceptedCount rest + 1

/-- Whether the event starts a goroutine. -/
def ListenEvent.isGo : ListenEvent → Bool
  | .go _ _ => true
  | _ => false

/-- The wire message at the head of a stream: the 20 bytes of the length field and as
many bytes after them as the field declares. -/
def wireMessage (c : Conn) : List Byte :=
  (streamBytes c.incoming).take (20 + decVal ((streamBytes c.incoming).take 20))

/-- Both reads of the decoder on `c` were filled in full: the first returned 20 bytes and
the second as many as the length field declares. -/
def readsInFull (c : Conn) : Prop :=
  (c.Read (make 20)).1.n = 20 ∧
    ((c.Read (make 20)).2.Read (make (decVal (c.Read (make 20)).1.buf))).1.n =
      decVal (c.Read (make 20)).1.buf

instance (c : Conn) : Decidable (readsInFull c) := by unfold readsInFull; infer_instance

/-! ## Decimal text -/

theorem digitByte_toNat (d : Nat) (h : d < 10) : (digitByte d).toNat = 48 + d := by
  show (48 + d) % 256 = 48 + d
  omega

theorem isDigit_digitByte (d : Nat) (h : d < 10) : isDigit (digitByte d) := by
  unfold isDigit
  rw [digitByte_toNat d h]
  omega

theorem digitValue_of_isDigit {c : Byte} (h : isDigit c) :
    digitValue c = some (c.toNat - 48) := by
  unfold isDigit at h
  unfold digitValue
  rw [if_pos h]

theorem digitValue_of_not_isDigit {c : Byte} (h : ¬ isDigit c) {d : Nat}
    (hd : digitValue c = some d) : 10 ≤ d := by
  unfold isDigit at h
  unfold digitValue at hd
  rw [if_neg h] at hd
  split at hd
  · injection hd with hd
    omega
  · cases hd

theorem le_foldl_decStep (cs : List Byte) (n : Nat) : n ≤ cs.foldl decStep n := by
  induction cs generalizing n with
  | nil => exact Nat.le_refl n
  | cons c cs ih =>
    have h := ih (decStep n c)
    simp only [List.foldl_cons]
    unfold decStep at h ⊢
    omega

/-- On digits whose value fits, the loop returns the value. -/
theorem parseUintLoop_ok (s0 : List Byte) (cs : List Byte) (n : Nat)
    (hd : ∀ c ∈ cs, isDigit c) (hfit : cs.foldl decStep n < 2 ^ 64) :
    parseUintLoop (2 ^ 64 - 1) s0 cs n = .ok (cs.foldl decStep n) := by
  induction cs generalizing n with
  | nil => rfl
  | cons c cs ih =>
    have hc : isDigit c := hd c (List.mem_cons_self c cs)
    have hcs : ∀ x ∈ cs, isDigit x := fun x hx => hd x (List.mem_cons_of_mem c hx)
    simp only [List.foldl_cons] at hfit ⊢
    have hle := le_foldl_decStep cs (decStep n c)
    have hstep : decStep n c < 2 ^ 64 := Nat.lt_of_le_of_lt hle hfit
    unfold isDigit at hc
    unfold parseUintLoop
    rw [digitValue_of_isDigit hc]
    have h1 : ¬ (10 ≤ c.toNat - 48) := by omega
    unfold decStep at hstep
    have h2 : ¬ (cutoff ≤ n) := by
      unfold cutoff maxUint64
      norm_num at hstep ⊢
      omega
    have h10 : n * 10 % 2 ^ 64 = n * 10 := Nat.mod_eq_of_lt (by omega)
    have h11 : (n * 10 + (c.toNat - 48)) % 2 ^ 64 = n * 10 + (c.toNat - 48) :=
      Nat.mod_eq_of_lt hstep
    simp only [h1, h2, if_false, h10, h11]
    have h3 : ¬ (n * 10 + (c.toNat - 48) < n * 10 ∨ 2 ^ 64 - 1 < n * 10 + (c.toNat - 48)) := by
      omega
    rw [if_neg h3]
    exact ih (decStep n c) hcs hfit

/-- The loop never returns a value on anything but digits whose value fits. -/
theorem parseUintLoop_ok_inv (s0 : List Byte) (cs : List Byte) (n m : Nat)
    (h : parseUintLoop (2 ^ 64 - 1) s0 cs n = .ok m) :
    (∀ c ∈ cs, isDigit c) ∧ cs.foldl decStep n = m ∧ (n < 2 ^ 64 → m < 2 ^ 64) := by
  induction cs generalizing n with
  | nil =>
    unfold parseUintLoop at h
    injection h with h
    subst h
    exact ⟨fun c hc => (by cases hc), rfl, fun hn => hn⟩
  | cons c cs ih =>
    unfold parseUintLoop at h
    by_cases hc : isDigit c
    · rw [digitValue_of_isDigit hc] at h
      simp only at h
      unfold isDigit at hc
      split at h
      · cases h
      · split at h
        · cases h
        · rename_i hcut
          split at h
          · cases h
          · rename_i hov
            unfold cutoff maxUint64 at hcut
            norm_num at hcut
            have h10 : n * 10 % 2 ^ 64 = n * 10 := Nat.mod_eq_of_lt (by omega)
            rw [h10] at hov h
            have h11 : (n * 10 + (c.toNat - 48)) % 2 ^ 64 = n * 10 + (c.toNat - 48) := by
              by_contra hne
              apply hov
              left
              omega
            rw [h11] at h
            obtain ⟨a, b, c3⟩ := ih _ h
            refine ⟨?_, ?_, ?_⟩
            · intro x hx
              rcases List.mem_cons.mp hx with rfl | hx
              · exact hc
              · exact a x hx
            · simpa [decStep] using b
            · intro _
              apply c3
              rw [h11] at hov
              omega
    · cases hdv : digitValue c with
      | none => rw [hdv] at h; cases h
      | some d =>
        rw [hdv] at h
        have := digitValue_of_not_isDigit hc hdv
        simp only [this, if_true] at h
        cases h

theorem maxVal_IntSize : ((2 ^ IntSize) % 2 ^ 64 + 2 ^ 64 - 1) % 2 ^ 64 = 2 ^ 64 - 1 := by
  decide

theorem ParseUint_unfold (s : List Byte) (hs : s ≠ []) :
    ParseUint s 0 = parseUintLoop (2 ^ 64 - 1) s s 0 := by
  unfold ParseUint
  rw [if_neg hs]
  simp only [if_true, maxVal_IntSize]

/-- `ParseUint` reads a non-empty run of digits whose value fits in 64 bits. -/
theorem ParseUint_of_digits (s : List Byte) (hs : s ≠ []) (hd : ∀ c ∈ s, isDigit c)
    (hfit : decVal s < 2 ^ 64) : ParseUint s 0 = .ok (decVal s) := by
  rw [ParseUint_unfold s hs]
  exact parseUintLoop_ok s s 0 hd hfit

/-- `ParseUint` returns a value only on a non-empty run of digits whose value fits. -/
theorem ParseUint_ok_inv (s : List Byte) (m : Nat) (h : ParseUint s 0 = .ok m) :
    s ≠ [] ∧ (∀ c ∈ s, isDigit c) ∧ decVal s = m ∧ m < 2 ^ 64 := by
  have hs : s ≠ [] := by
    intro hs
    unfold ParseUint at h
    rw [if_pos hs] at h
    cases h
  rw [ParseUint_unfold s hs] at h
  obtain ⟨a, b, c⟩ := parseUintLoop_ok_inv s s 0 m h
  exact ⟨hs, a, b, c (by norm_num)⟩

/-- Anything else makes `ParseUint` fail. -/
theorem ParseUint_error_of (s : List Byte)
    (h : ¬ ((∀ c ∈ s, isDigit c) ∧ decVal s < 2 ^ 64)) : ∃ e, ParseUint s 0 = .error e := by
  cases hr : ParseUint s 0 with
  | error e => exact ⟨e, rfl⟩
  | ok m =>
    obtain ⟨_, a, b, c⟩ := ParseUint_ok_inv s m hr
    exact absurd ⟨a, b ▸ c⟩ h

theorem formatBits_acc (fuel u : Nat) (acc : List Byte) :
    formatBits fuel u acc = formatBits fuel u [] ++ acc := by
  induction fuel generalizing u acc with
  | zero => simp [formatBits]
  | succ fuel ih =>
    unfold formatBits
    split
    · rw [ih (u / 10) (digitByte (u % 10) :: acc), ih (u / 10) [digitByte (u % 10)]]
      simp
    · simp

theorem formatBits_succ (fuel u : Nat) (h : 10 ≤ u) :
    formatBits (fuel + 1) u [] = formatBits fuel (u / 10) [] ++ [digitByte (u % 10)] := by
  conv_lhs => unfold formatBits
  rw [if_pos h, formatBits_acc]

theorem formatBits_small (fuel u : Nat) (h : u < 10) :
    formatBits fuel u [] = [digitByte u] := by
  cases fuel with
  | zero => simp [formatBits, Nat.mod_eq_of_lt h]
  | succ fuel =>
    unfold formatBits
    rw [if_neg (by omega)]

theorem decVal_append_singleton (xs : List Byte) (c : Byte) :
    decVal (xs ++ [c]) = decVal xs * 10 + (c.toNat - 48) := by
  simp [decVal, List.foldl_append, decStep]

theorem formatBits_spec (fuel : Nat) : ∀ u, u ≤ fuel →
    decVal (formatBits fuel u []) = u ∧ (∀ c ∈ formatBits fuel u [], isDigit c) ∧
      (∀ k, 1 ≤ k → u < 10 ^ k → (formatBits fuel u []).length ≤ k) ∧
      formatBits fuel u [] ≠ [] := by
  induction fuel with
  | zero =>
    intro u hu
    have h0 : u = 0 := by omega
    subst h0
    rw [formatBits_small 0 0 (by omega)]
    refine ⟨by decide, by decide, ?_, by decide⟩
    intro k hk _
    simpa using hk
  | succ fuel ih =>
    intro u hu
    by_cases h : 10 ≤ u
    · rw [formatBits_succ fuel u h]
      obtain ⟨a, b, c, _⟩ := ih (u / 10) (by omega)
      refine ⟨?_, ?_, ?_, by simp⟩
      · rw [decVal_append_singleton, a, digitByte_toNat _ (Nat.mod_lt u (by omega))]
        omega
      · intro x hx
        rcases List.mem_append.mp hx with hx | hx
        · exact b x hx
        · rw [List.mem_singleton.mp hx]
          exact isDigit_digitByte _ (Nat.mod_lt u (by omega))
      · intro k hk hlt
        have hk2 : 2 ≤ k := by
          by_contra hk2
          have : k = 1 := by omega
          subst this
          omega
        have hdiv : u / 10 < 10 ^ (k - 1) := by
          apply Nat.div_lt_of_lt_mul
          have : 10 ^ k = 10 * 10 ^ (k - 1) := by
            conv_lhs => rw [show k = (k - 1) + 1 by omega]
            rw [pow_succ]
            ring
          omega
        have := c (k - 1) (by omega) hdiv
        simp only [List.length_append, List.length_singleton]
        omega
    · have hu10 : u < 10 := by omega
      rw [formatBits_small _ u hu10]
      refine ⟨?_, ?_, ?_, by simp⟩
      · simp [decVal, decStep, digitByte_toNat u hu10]
      · intro x hx
        rw [List.mem_singleton.mp hx]
        exact isDigit_digitByte u hu10
      · intro k hk _
        simpa using hk

theorem decVal_zeros_append (k : Nat) (ds : List Byte) :
    decVal (List.replicate k (48 : Byte) ++ ds) = decVal ds := by
  induction k with
  | zero => simp
  | succ k ih =>
    have h48 : decStep 0 (48 : Byte) = 0 := by decide
    unfold decVal at ih ⊢
    rw [List.replicate_succ, List.cons_append, List.foldl_cons, h48]
    exact ih

/-- `Sprintf("%020d", n)` of a number below `10 ^ 20` is 20 digits that denote `n`. -/
theorem Sprintf020d_spec (n : Nat) (h : n < 10 ^ 20) :
    (Sprintf020d n).length = 20 ∧ (∀ c ∈ Sprintf020d n, isDigit c) ∧
      decVal (Sprintf020d n) = n := by
  obtain ⟨a, b, c, _⟩ := formatBits_spec n n (Nat.le_refl n)
  have hlen := c 20 (by norm_num) h
  unfold Sprintf020d
  refine ⟨?_, ?_, ?_⟩
  · simp only [List.length_append, List.length_replicate]
    omega
  · intro x hx
    rcases List.mem_append.mp hx with hx | hx
    · rw [(List.mem_replicate.mp hx).2]
      decide
    · exact b x hx
  · simp only []
    rw [decVal_zeros_append, a]

theorem ParseUint_Sprintf020d (n : Nat) (h : n < 2 ^ 64) :
    ParseUint (Sprintf020d n) 0 = .ok n := by
  obtain ⟨a, b, c⟩ := Sprintf020d_spec n (by norm_num at h ⊢; omega)
  have hne : Sprintf020d n ≠ [] := by
    intro h0
    rw [h0] at a
    cases a
  have := ParseUint_of_digits (Sprintf020d n) hne b (by rw [c]; exact h)
  rw [c] at this
  exact this

theorem Bytes_eq (p : Package) : p.Bytes = p.SizeBytes ++ (p.TypeBytes ++ p.Data) := by
  simp [Package.Bytes, bytesJoin, sep]

/-! ## Reading a frame -/

/-- The decoder's outcome, in terms of its two reads. -/
theorem parsePackage_fst (c : Conn) :
    (parsePackage c).1 =
      match (c.Read (make 20)).1.err with
      | some e => .err e
      | none =>
        match ParseUint (c.Read (make 20)).1.buf 0 with
        | .error e => .err e
        | .ok lu =>
          if maxAlloc < lu then .panic "makeslice: len out of range"
          else
            match ((c.Read (make 20)).2.Read (make lu)).1.err with
            | some e => .err e
            | none =>
              if ((c.Read (make 20)).2.Read (make lu)).1.buf.length < 1 then
                .panic "slice bounds out of range [:1] with capacity 0"
              else
                match ParseUint (((c.Read (make 20)).2.Read (make lu)).1.buf.take 1) 0 with
                | .error e => .err e
                | .ok tp =>
                  .ok (newPackage (tp % 2 ^ IntSize)
                    (((c.Read (make 20)).2.Read (make lu)).1.buf.drop 1)) := by
  unfold parsePackage
  simp only []
  cases h1 : (c.Read (make 20)).1.err with
  | some e => rfl
  | none =>
    simp only []
    cases h2 : ParseUint (c.Read (make 20)).1.buf 0 with
    | error e => rfl
    | ok lu =>
      simp only []
      by_cases h3 : maxAlloc < lu
      · simp only [if_pos h3]
      · simp only [if_neg h3]
        cases h4 : ((c.Read (make 20)).2.Read (make lu)).1.err with
        | some e => rfl
        | none =>
          simp only []
          by_cases h5 : ((c.Read (make 20)).2.Read (make lu)).1.buf.length < 1
          · simp only [if_pos h5]
          · simp only [if_neg h5]
            cases h6 : ParseUint (((c.Read (make 20)).2.Read (make lu)).1.buf.take 1) 0 <;> rfl

/-- A read into a fresh buffer of `n > 0` bytes either fails, or yields some bytes `got`
from the front of the stream, at most `n` of them, followed by the untouched zeros. -/
theorem Read_make (c : Conn) (n : Nat) (hn : 0 < n) :
    (∃ e, (c.Read (make n)).1.err = some e) ∨
    ∃ got tail, (c.Read (make n)).1 = ⟨got ++ make (n - got.length), got.length, none⟩ ∧
      got.length ≤ n ∧ streamBytes c.incoming = got ++ tail ∧
      streamBytes (c.Read (make n)).2.incoming = tail := by
  unfold Conn.Read
  have hm : (make n).length = n := by simp [make]
  rw [hm, if_neg (by omega)]
  cases hinc : c.incoming with
  | nil => exact Or.inl ⟨.EOF, rfl⟩
  | cons ev rest =>
    cases ev with
    | fail e => exact Or.inl ⟨e, rfl⟩
    | data bs =>
      right
      by_cases hle : bs.length ≤ n
      · refine ⟨bs, streamBytes rest, ?_, hle, rfl, ?_⟩
        · simp only [if_pos hle]
          simp [make]
        · simp only [if_pos hle]
      · refine ⟨bs.take n, bs.drop n ++ streamBytes rest, ?_, ?_, ?_, ?_⟩
        · simp only [if_neg hle]
          have : (List.take n bs).length = n := by
            rw [List.length_take]; omega
          simp [make, this]
        · rw [List.length_take]; omega
        · show bs ++ streamBytes rest = List.take n bs ++ (List.drop n bs ++ streamBytes rest)
          rw [← List.append_assoc, List.take_append_drop]
        · simp only [if_neg hle]
          simp [streamBytes]

/-- A read into a fresh buffer of `a.length` bytes, when the run at the head of the
stream starts with `a`, is filled in full with `a`. -/
theorem Read_full (c : Conn) (a b : List Byte) (rest : List ReadEvent)
    (hin : c.incoming = .data (a ++ b) :: rest) (ha : 0 < a.length) :
    c.Read (make a.length) =
      (⟨a, a.length, none⟩,
        { c with incoming := if b = [] then rest else .data b :: rest }) := by
  unfold Conn.Read
  have hm : (make a.length).length = a.length := by simp [make]
  rw [hm, if_neg (by omega), hin]
  by_cases hb : b = []
  · subst hb
    simp [make]
  · have hlen : 0 < b.length := List.length_pos.mpr hb
    simp only [List.length_append]
    rw [if_neg (by omega), if_neg hb]
    simp

/-- The decoder when both of its reads are filled in full, the first with a well-formed
length field for `N` and the second with `N` bytes: the outcome is decided by the first
byte of the block alone. -/
theorem parsePackage_of_reads (c : Conn) (N : Nat) (body : List Byte)
    (h1 : (c.Read (make 20)).1 = ⟨Sprintf020d N, 20, none⟩)
    (h2 : ((c.Read (make 20)).2.Read (make N)).1 = ⟨body, N, none⟩)
    (hN : N ≤ maxAlloc) (hpos : 1 ≤ N) (hbody : body.length = N) :
    (parsePackage c).1 =
      match ParseUint (body.take 1) 0 with
      | .error e => .err e
      | .ok tp => .ok (newPackage (tp % 2 ^ IntSize) (body.drop 1)) := by
  have hlt : N < 2 ^ 64 := by
    unfold maxAlloc at hN
    norm_num at hN ⊢
    omega
  have hnl : ¬ body.length < 1 := by omega
  rw [parsePackage_fst, h1]
  simp only []
  rw [ParseUint_Sprintf020d N hlt]
  simp only [if_neg (Nat.not_lt.mpr hN), h2]
  rw [if_neg hnl]

/-- Both reads of the decoder are filled in full when the stream delivers a 20-byte
header and a non-empty block, either as one run or as one run each. -/
theorem reads_in_full (c : Conn) (hdr body : List Byte) (hh : hdr.length = 20)
    (hb : 0 < body.length)
    (hin : c.incoming = [.data (hdr ++ body)] ∨ c.incoming = [.data hdr, .data body]) :
    (c.Read (make 20)).1 = ⟨hdr, 20, none⟩ ∧
      ((c.Read (make 20)).2.Read (make body.length)).1 = ⟨body, body.length, none⟩ := by
  have hne : body ≠ [] := List.length_pos.mp hb
  have hr1 : c.Read (make 20) = (⟨hdr, 20, none⟩, { c with incoming := [.data body] }) := by
    rcases hin with hin | hin
    · have h := Read_full c hdr body [] hin (by omega)
      rw [hh, if_neg hne] at h
      exact h
    · have h := Read_full c hdr [] [.data body] (by rw [List.append_nil]; exact hin) (by omega)
      rw [hh, if_pos rfl] at h
      exact h
  have hr2 := Read_full { c with incoming := [.data body] } body [] [] (by rw [List.append_nil])
    hb
  rw [hr1]
  exact ⟨rfl, by rw [hr2]⟩

theorem Size_eq (p : Package) (h : p.Data.length < maxAlloc) : p.Size = p.Data.length + 1 := by
  unfold Package.Size
  apply Nat.mod_eq_of_lt
  unfold maxAlloc at h
  norm_num at h ⊢
  omega

theorem TypeBytes_TypeDat (d : List Byte) : (Package.mk TypeDat d).TypeBytes = [49] := rfl

theorem TypeBytes_TypeErr (d : List Byte) : (Package.mk TypeErr d).TypeBytes = [50] := rfl

/-! ## The codec -/

/-- The decoder reads back what `Bytes()` wrote, for the two known kinds, when the
stream delivers those bytes so that each read is filled in full: as one run, or the
length field as one run and the rest as another. -/
theorem parsePackage_of_Bytes (kind : PType) (payload : List Byte) (c : Conn)
    (hkind : kind = TypeDat ∨ kind = TypeErr) (hlen : payload.length < maxAlloc)
    (hin : c.incoming = [.data (Package.mk kind payload).Bytes] ∨
      c.incoming = [.data ((Package.mk kind payload).Bytes.take 20),
        .data ((Package.mk kind payload).Bytes.drop 20)]) :
    (parsePackage c).1 = .ok (Package.mk kind payload) := by
  have hsize := Size_eq (Package.mk kind payload) hlen
  have h20 : (Sprintf020d (payload.length + 1)).length = 20 := by
    apply (Sprintf020d_spec _ _).1
    unfold maxAlloc at hlen
    norm_num at hlen ⊢
    omega
  have key : ∀ tb : Byte, (Package.mk kind payload).TypeBytes = [tb] →
      ParseUint [tb] 0 = .ok kind → kind % 2 ^ IntSize = kind →
      (parsePackage c).1 = .ok (Package.mk kind payload) := by
    intro tb htb hparse hmod
    have hb : (Package.mk kind payload).Bytes =
        Sprintf020d (payload.length + 1) ++ (tb :: payload) := by
      rw [Bytes_eq, Package.SizeBytes, hsize, htb]
      rfl
    have htake : (Package.mk kind payload).Bytes.take 20 = Sprintf020d (payload.length + 1) := by
      rw [hb, List.take_left' h20]
    have hdrop : (Package.mk kind payload).Bytes.drop 20 = tb :: payload := by
      rw [hb, List.drop_left' h20]
    rw [htake, hdrop, hb] at hin
    obtain ⟨r1, r2⟩ := reads_in_full c _ (tb :: payload) h20 (by simp) hin
    rw [parsePackage_of_reads c (payload.length + 1) (tb :: payload) r1 r2 (by omega) (by omega)
      rfl]
    show (match ParseUint [tb] 0 with
      | .error e => Result.err e
      | .ok tp => Result.ok (newPackage (tp % 2 ^ IntSize) payload)) = _
    rw [hparse]
    show Result.ok (newPackage (kind % 2 ^ IntSize) payload) = _
    rw [hmod]
    rfl
  rcases hkind with rfl | rfl
  · exact key 49 (TypeBytes_TypeDat payload) (by decide) (by decide)
  · exact key 50 (TypeBytes_TypeErr payload) (by decide) (by decide)

/-- C1. Round trip: for `kind` one of `TypeDat`, `TypeErr` and any payload (the empty one
included) short enough to be allocated, `parsePackage` on a stream that delivers exactly
the bytes of `Package{kind, payload}.Bytes()`, in full on each read (as one run, or the
length field as one run and the block as the next), returns the package with that
`Type` and that `Data`. -/
theorem parsePackage_Bytes_roundtrip (kind : PType) (payload : List Byte) (c : Conn)
    (hkind : kind = TypeDat ∨ kind = TypeErr) (hlen : payload.length < maxAlloc)
    (hin : c.incoming = [.data (Package.mk kind payload).Bytes] ∨
      c.incoming = [.data ((Package.mk kind payload).Bytes.take 20),
        .data ((Package.mk kind payload).Bytes.drop 20)]) :
    (parsePackage c).1 = .ok (Package.mk kind payload) :=
  parsePackage_of_Bytes kind payload c hkind hlen hin

theorem parsePackage_Bytes_roundtrip_witness :
    (parsePackage (serverConn [.data (Package.mk TypeErr (ascii "NOK")).Bytes])).1 =
        .ok (Package.mk TypeErr (ascii "NOK")) ∧
      (parsePackage (serverConn [.data (ascii "00000000000000000001"), .data (ascii "1")])).1 =
        .ok (Package.mk TypeDat []) :=
  ⟨parsePackage_Bytes_roundtrip TypeErr (ascii "NOK") _ (Or.inr rfl) (by decide) (Or.inl rfl),
    parsePackage_Bytes_roundtrip TypeDat [] _ (Or.inl rfl) (by decide) (Or.inr (by decide))⟩

/-- C2. For every package whose payload length is representable (below `2 ^ 63`), the
first 20 bytes of `Bytes()` are the length field: exactly 20 ASCII decimal digits, the
decimal text of `len(Data) + 1` padded on the left with `'0'`, which `ParseUint` reads
back as `len(Data) + 1`. -/
theorem Bytes_length_field (p : Package) (h : p.Data.length < 2 ^ 63) :
    p.Bytes.take 20 = p.SizeBytes ∧ p.SizeBytes.length = 20 ∧
      (∀ c ∈ p.Bytes.take 20, isDigit c) ∧
      p.SizeBytes = List.replicate (20 - (FormatUint (p.Data.length + 1)).length) 48 ++
        FormatUint (p.Data.length + 1) ∧
      decVal (p.Bytes.take 20) = p.Data.length + 1 ∧
      ParseUint (p.Bytes.take 20) 0 = .ok (p.Data.length + 1) := by
  have hsize : p.Size = p.Data.length + 1 := by
    unfold Package.Size
    apply Nat.mod_eq_of_lt
    norm_num at h ⊢
    omega
  have hlt : p.Data.length + 1 < 2 ^ 64 := by
    norm_num at h ⊢
    omega
  obtain ⟨a, b, c⟩ := Sprintf020d_spec (p.Data.length + 1) (by norm_num at hlt ⊢; omega)
  have hsb : p.SizeBytes = Sprintf020d (p.Data.length + 1) := by
    rw [Package.SizeBytes, hsize]
  have htake : p.Bytes.take 20 = p.SizeBytes := by
    rw [Bytes_eq, List.take_append_of_le_length (by rw [hsb, a]), List.take_of_length_le]
    rw [hsb, a]
  rw [htake, hsb]
  exact ⟨rfl, a, b, rfl, c, ParseUint_Sprintf020d _ hlt⟩

theorem Bytes_length_field_witness :
    (Package.mk TypeDat (ascii "hello")).Bytes.take 20 = ascii "00000000000000000006" ∧
      ParseUint ((Package.mk TypeDat (ascii "hello")).Bytes.take 20) 0 = .ok 6 :=
  have h := Bytes_length_field (Package.mk TypeDat (ascii "hello")) (by decide)
  ⟨by decide, h.2.2.2.2.2⟩

/-- C3. Wire layout: for `TypeDat` and for `TypeErr` and every payload, `Bytes()` is
`SizeBytes()`, then the one type byte (`'1'` for `TypeDat`, `'2'` for `TypeErr`), then
the payload unchanged, with nothing between or after; its length is `21 + len(payload)`. -/
theorem Bytes_layout (payload : List Byte) :
    ((Package.mk TypeDat payload).Bytes =
        (Package.mk TypeDat payload).SizeBytes ++ [49] ++ payload ∧
      (Package.mk TypeDat payload).Bytes.length = 21 + payload.length) ∧
    ((Package.mk TypeErr payload).Bytes =
        (Package.mk TypeErr payload).SizeBytes ++ [50] ++ payload ∧
      (Package.mk TypeErr payload).Bytes.length = 21 + payload.length) := by
  have hlen : ∀ t : PType, (Package.mk t payload).SizeBytes.length = 20 := by
    intro t
    have hlt : (Package.mk t payload).Size < 10 ^ 20 := by
      have : (Package.mk t payload).Size < 2 ^ 64 := Nat.mod_lt _ (by norm_num)
      norm_num at this ⊢
      omega
    exact (Sprintf020d_spec _ hlt).1
  refine ⟨⟨?_, ?_⟩, ?_, ?_⟩
  · rw [Bytes_eq, TypeBytes_TypeDat, List.append_assoc]
  · rw [Bytes_eq, TypeBytes_TypeDat, List.length_append, hlen]
    simp
    omega
  · rw [Bytes_eq, TypeBytes_TypeErr, List.append_assoc]
  · rw [Bytes_eq, TypeBytes_TypeErr, List.length_append, hlen]
    simp
    omega

/-- C4. Literal scenario: `Package{TypeDat, "x"}.Bytes()` is the 22 bytes
`"00000000000000000002"` followed by `"1x"`. -/
theorem Bytes_literal_x :
    (Package.mk TypeDat (ascii "x")).Bytes = ascii "00000000000000000002" ++ ascii "1x" ∧
      (Package.mk TypeDat (ascii "x")).Bytes.length = 22 ∧
      (Package.mk TypeDat (ascii "x")).Size = 2 := by
  decide

theorem not_isDigit_zero : ¬ isDigit (0 : Byte) := by decide

/-- `ParseUint` fails on text that holds a byte which is not a digit. -/
theorem ParseUint_error_of_mem (s : List Byte) (x : Byte) (hx : x ∈ s) (hnd : ¬ isDigit x) :
    ∃ e, ParseUint s 0 = .error e :=
  ParseUint_error_of s (fun h => hnd (h.1 x hx))

/-- The first byte of a buffer that was only partly filled is the first byte received,
or the zero the buffer was made with. -/
theorem take_one_partial (got : List Byte) (k : Nat) (h : 0 < (got ++ make k).length) :
    (got ++ make k).take 1 = [got.headD 0] := by
  cases got with
  | nil =>
    cases k with
    | zero => simp [make] at h
    | succ k => simp [make, List.replicate_succ]
  | cons g gs => simp

/-- C5, as the code has it. For every stream that carries a well-formed length field
for `N` (with `1 ≤ N`, and `N` within what can be allocated) followed by `N` bytes
whose first byte is not an ASCII decimal digit, in whatever runs the bytes arrive,
`parsePackage` fails with an error and returns no package. -/
theorem parsePackage_nondigit_tag (c : Conn) (N : Nat) (b0 : Byte) (bs extra : List Byte)
    (hstream : streamBytes c.incoming = Sprintf020d N ++ ((b0 :: bs) ++ extra))
    (hbody : (b0 :: bs).length = N) (hN : N ≤ maxAlloc) (hnd : ¬ isDigit b0) :
    ∃ e, (parsePackage c).1 = .err e := by
  have hlt : N < 2 ^ 64 := by
    unfold maxAlloc at hN
    norm_num at hN ⊢
    omega
  have h20 : (Sprintf020d N).length = 20 :=
    (Sprintf020d_spec N (by norm_num at hlt ⊢; omega)).1
  have hNpos : 0 < N := by rw [← hbody]; simp
  rw [parsePackage_fst]
  rcases Read_make c 20 (by norm_num) with ⟨e, he⟩ | ⟨got, tail, hr, hle, hs, hs2⟩
  · rw [he]
    exact ⟨e, rfl⟩
  · rw [hr]
    simp only []
    by_cases hshort : got.length < 20
    · have hz : (0 : Byte) ∈ got ++ make (20 - got.length) := by
        apply List.mem_append_right
        unfold make
        exact List.mem_replicate.mpr ⟨by omega, rfl⟩
      obtain ⟨e, he⟩ := ParseUint_error_of_mem _ 0 hz not_isDigit_zero
      rw [he]
      exact ⟨e, rfl⟩
    · have hlen : got.length = 20 := by omega
      rw [hstream] at hs
      have hinj := List.append_inj hs (by rw [h20, hlen])
      have hgot : got = Sprintf020d N := hinj.1.symm
      have htail : tail = (b0 :: bs) ++ extra := hinj.2.symm
      have hbuf : got ++ make (20 - got.length) = Sprintf020d N := by
        rw [hlen, hgot]
        simp [make]
      rw [hbuf, ParseUint_Sprintf020d N hlt]
      simp only [if_neg (Nat.not_lt.mpr hN)]
      rcases Read_make (c.Read (make 20)).2 N hNpos with ⟨e, he⟩ | ⟨got2, tail2, hr2, hle2, hs3, _⟩
      · rw [he]
        exact ⟨e, rfl⟩
      · rw [hr2]
        simp only []
        have hl2 : (got2 ++ make (N - got2.length)).length = N := by
          simp [make]
          omega
        have hnl : ¬ (got2 ++ make (N - got2.length)).length < 1 := by omega
        rw [if_neg hnl, take_one_partial got2 _ (by omega)]
        have hfirst : ¬ isDigit (got2.headD 0) := by
          cases got2 with
          | nil => exact not_isDigit_zero
          | cons g gs =>
            rw [hs2, htail] at hs3
            simp only [List.cons_append] at hs3
            injection hs3 with hg _
            subst hg
            exact hnd
        obtain ⟨e, he⟩ := ParseUint_error_of_mem [got2.headD 0] _ (List.mem_singleton.mpr rfl) hfirst
        rw [he]
        exact ⟨e, rfl⟩

theorem parsePackage_nondigit_tag_witness :
    ∃ e, (parsePackage (serverConn [.data (ascii "00000000000000000002xa")])).1 = .err e :=
  parsePackage_nondigit_tag _ 2 120 [97] [] (by decide) (by decide) (by decide) (by decide)

/-- C5 fails as stated: after the length field `2`, the block `"3a"` with the type digit
`'3'` is decoded without error into a package of `Type` 3. -/
theorem parsePackage_accepts_tag_three :
    (parsePackage (serverConn [.data (ascii "000000000000000000023a")])).1 =
      .ok (Package.mk 3 (ascii "a")) := by
  decide

/-- C6 at a failing input. The length field declares 3 bytes and the read of the block
returns only the two bytes `"1a"`: `parsePackage` reports no error and returns a payload
whose last byte, a zero, was never read from the stream. -/
theorem parsePackage_short_block :
    (parsePackage (serverConn [.data (ascii "00000000000000000003"), .data (ascii "1a")])).1 =
      .ok (Package.mk TypeDat [97, 0]) := by
  decide

/-- C7. Malformed length: when the first read, of the 20-byte length field, yields fewer
than 20 bytes, or leaves in the buffer a byte that is not an ASCII decimal digit, or
leaves a number that does not fit in 64 bits, `parsePackage` fails with an error and
returns no package. -/
theorem parsePackage_malformed_length (c : Conn)
    (h : (c.Read (make 20)).1.n < 20 ∨ (∃ x ∈ (c.Read (make 20)).1.buf, ¬ isDigit x) ∨
      2 ^ 64 ≤ decVal (c.Read (make 20)).1.buf) :
    ∃ e, (parsePackage c).1 = .err e := by
  rw [parsePackage_fst]
  cases herr : (c.Read (make 20)).1.err with
  | some e => exact ⟨e, rfl⟩
  | none =>
    simp only []
    have hfail : ∃ e, ParseUint (c.Read (make 20)).1.buf 0 = .error e := by
      rcases h with hshort | ⟨x, hx, hnd⟩ | hbig
      · rcases Read_make c 20 (by norm_num) with ⟨e, he⟩ | ⟨got, tail, hr, _, _, _⟩
        · rw [herr] at he
          cases he
        · rw [hr] at hshort ⊢
          simp only [] at hshort ⊢
          apply ParseUint_error_of_mem _ 0 _ not_isDigit_zero
          apply List.mem_append_right
          unfold make
          exact List.mem_replicate.mpr ⟨by omega, rfl⟩
      · exact ParseUint_error_of_mem _ x hx hnd
      · exact ParseUint_error_of _ (fun hh => by omega)
    obtain ⟨e, he⟩ := hfail
    rw [he]
    exact ⟨e, rfl⟩

theorem parsePackage_malformed_length_witness :
    (∃ e, (parsePackage (serverConn [.data (ascii "0000000000000000002")])).1 = .err e) ∧
    (∃ e, (parsePackage (serverConn [.data (ascii "+0000000000000000002")])).1 = .err e) ∧
    (∃ e, (parsePackage (serverConn [.data (ascii "99999999999999999999")])).1 = .err e) :=
  ⟨parsePackage_malformed_length _ (Or.inl (by decide)),
    parsePackage_malformed_length _ (Or.inr (Or.inl ⟨43, by decide, by decide⟩)),
    parsePackage_malformed_length _ (Or.inr (Or.inr (by decide)))⟩

/-! ## The connection protocol -/

/-- Reading changes nothing of a connection but what is left to read. -/
theorem Read_frame (c : Conn) (p : List Byte) :
    (c.Read p).2.peer = c.peer ∧ (c.Read p).2.writeErr = c.writeErr ∧
      (c.Read p).2.closeErr = c.closeErr ∧ (c.Read p).2.outgoing = c.outgoing := by
  unfold Conn.Read
  split
  · exact ⟨rfl, rfl, rfl, rfl⟩
  · split
    · exact ⟨rfl, rfl, rfl, rfl⟩
    · exact ⟨rfl, rfl, rfl, rfl⟩
    · split <;> exact ⟨rfl, rfl, rfl, rfl⟩

/-- The connection `parsePackage` leaves behind is the result of its reads. -/
theorem parsePackage_snd (c : Conn) :
    (parsePackage c).2 = (c.Read (make 20)).2 ∨
      ∃ lu, (parsePackage c).2 = ((c.Read (make 20)).2.Read (make lu)).2 := by
  unfold parsePackage
  simp only []
  split
  · exact Or.inl rfl
  · split
    · exact Or.inl rfl
    · rename_i lu _
      split
      · exact Or.inl rfl
      · split
        · exact Or.inr ⟨lu, rfl⟩
        · split
          · exact Or.inr ⟨lu, rfl⟩
          · split <;> exact Or.inr ⟨lu, rfl⟩

/-- Decoding changes nothing of a connection but what is left to read. -/
theorem parsePackage_frame_conn (c : Conn) :
    (parsePackage c).2.peer = c.peer ∧ (parsePackage c).2.writeErr = c.writeErr ∧
      (parsePackage c).2.closeErr = c.closeErr ∧ (parsePackage c).2.outgoing = c.outgoing := by
  obtain ⟨a1, a2, a3, a4⟩ := Read_frame c (make 20)
  rcases parsePackage_snd c with h | ⟨lu, h⟩
  · rw [h]
    exact ⟨a1, a2, a3, a4⟩
  · obtain ⟨b1, b2, b3, b4⟩ := Read_frame (c.Read (make 20)).2 (make lu)
    rw [h]
    exact ⟨b1.trans a1, b2.trans a2, b3.trans a3, b4.trans a4⟩

/-- `Server.handle` when decoding fails. -/
theorem handle_of_decode_error (s : Server) (conn : Conn) (e : GoError)
    (hdec : (parsePackage conn).1 = .err e) :
    s.handle conn = (.errHandler e :: closeEvents (parsePackage conn).2, (parsePackage conn).2) := by
  unfold Server.handle
  cases hpp : parsePackage conn with
  | mk r conn1 =>
    rw [hpp] at hdec
    simp only [] at hdec
    subst hdec
    rfl

/-- `Server.handle` when a middleware rejects the decoded request. -/
theorem handle_of_reject (s : Server) (conn : Conn) (pReq : Package) (evs : List Event)
    (e : GoError) (hdec : (parsePackage conn).1 = .ok pReq)
    (hmw : runMiddleware pReq s.networking.middleware 0 = (evs, some e)) :
    s.handle conn =
      (evs ++ .errHandler e :: closeEvents (parsePackage conn).2, (parsePackage conn).2) := by
  unfold Server.handle
  cases hpp : parsePackage conn with
  | mk r conn1 =>
    rw [hpp] at hdec
    simp only [] at hdec
    subst hdec
    simp only [hmw]

/-- `Server.handle` when every middleware passes the decoded request. -/
theorem handle_of_pass (s : Server) (h : Handler) (conn : Conn) (pReq : Package)
    (evs : List Event) (hs : s.handler = some h)
    (hdec : (parsePackage conn).1 = .ok pReq)
    (hmw : runMiddleware pReq s.networking.middleware 0 = (evs, none)) :
    s.handle conn =
      (evs ++ [.handler pReq, .write (responseOf (h pReq)).Bytes] ++
          (match ((parsePackage conn).2.Write (responseOf (h pReq)).Bytes).1 with
            | some e => [Event.errHandler e]
            | none => []) ++
          closeEvents ((parsePackage conn).2.Write (responseOf (h pReq)).Bytes).2,
        ((parsePackage conn).2.Write (responseOf (h pReq)).Bytes).2) := by
  unfold Server.handle
  cases hpp : parsePackage conn with
  | mk r conn1 =>
    rw [hpp] at hdec
    simp only [] at hdec
    subst hdec
    simp only [hmw, hs]
    rfl

/-- The middleware loop stops at the first failure: exactly the middleware up to and
including that one are called, once each and in order. -/
theorem runMiddleware_first_failure (p : Package) (ms : List Middleware) (k i : Nat)
    (m : Middleware) (e : GoError) (hi : ms[i]? = some m) (hf : m p = some e)
    (hpass : ∀ j, j < i → ∀ mj, ms[j]? = some mj → mj p = none) :
    runMiddleware p ms k =
      ((List.range' k (i + 1)).map (fun j => Event.middleware j p), some e) := by
  induction ms generalizing k i with
  | nil => simp at hi
  | cons m0 rest ih =>
    cases i with
    | zero =>
      simp only [List.getElem?_cons_zero, Option.some.injEq] at hi
      subst hi
      unfold runMiddleware
      rw [hf]
      rfl
    | succ i =>
      have h0 : m0 p = none := hpass 0 (by omega) m0 (by simp)
      have hrec := ih (k + 1) i (by simpa using hi)
        (fun j hj mj hmj => hpass (j + 1) (by omega) mj (by simpa using hmj))
      unfold runMiddleware
      rw [h0]
      simp only [hrec]
      rw [List.range'_succ k (i + 1)]
      rfl

/-- The request bytes a client sends reach `parsePackage` on the server whole. -/
theorem deliver_Bytes (p : Package) : deliver p.Bytes = [.data p.Bytes] := by
  unfold deliver
  rw [if_neg]
  intro h
  have hl := congrArg List.length h
  rw [Bytes_eq] at hl
  have h20 : p.SizeBytes.length = 20 := by
    have hlt : p.Size < 10 ^ 20 := by
      have : p.Size < 2 ^ 64 := Nat.mod_lt _ (by norm_num)
      norm_num at this ⊢
      omega
    exact (Sprintf020d_spec _ hlt).1
  simp [h20] at hl

/-- What the server end decodes from one client request. -/
theorem parsePackage_serverConn (data : List Byte) (h : data.length < maxAlloc) :
    (parsePackage (serverConn (deliver (newPackage TypeDat data).Bytes))).1 =
      .ok (Package.mk TypeDat data) := by
  apply parsePackage_of_Bytes TypeDat data _ (Or.inl rfl) h
  left
  rw [deliver_Bytes]
  rfl

/-- The client's call, in terms of what the peer sends back for the request bytes. -/
theorem Request_dialServer (cl : Client) (s : Server) (data : List Byte) :
    (cl.Request (dialServer s) data).1 =
      match (parsePackage (Conn.mk (serverPeer s (newPackage TypeDat data).Bytes)
          (serverPeer s) none none (newPackage TypeDat data).Bytes)).1 with
      | .panic msg => .panic msg
      | .err e => .err e
      | .ok pRes =>
        match pRes.Error with
        | some e => .err e
        | none => .ok pRes.Data := by
  unfold Client.Request dialServer Conn.Write
  simp only [List.nil_append]
  split
  · rename_i h
    simp only [h]
  · rename_i h
    simp only [h]
  · rename_i h
    simp only [h]
    split <;> rfl

/-- `Server.handle` on a connection whose write and close succeed, when every middleware
passes: the handler is called and one response is written. -/
theorem handle_pass_healthy (s : Server) (h : Handler) (conn : Conn) (pReq : Package)
    (evs : List Event) (hs : s.handler = some h)
    (hdec : (parsePackage conn).1 = .ok pReq)
    (hmw : runMiddleware pReq s.networking.middleware 0 = (evs, none))
    (hw : conn.writeErr = none) (hc : conn.closeErr = none) :
    (s.handle conn).1 =
        evs ++ [.handler pReq, .write (responseOf (h pReq)).Bytes, .close] ∧
      (s.handle conn).2.outgoing = conn.outgoing ++ (responseOf (h pReq)).Bytes := by
  obtain ⟨_, f2, f3, f4⟩ := parsePackage_frame_conn conn
  rw [hw] at f2
  rw [hc] at f3
  rw [handle_of_pass s h conn pReq evs hs hdec hmw]
  unfold Conn.Write closeEvents Conn.Close
  simp only [f2, f3, f4]
  simp

/-- `Server.handle` when a middleware rejects: nothing is written. -/
theorem handle_reject_outgoing (s : Server) (conn : Conn) (pReq : Package) (evs : List Event)
    (e : GoError) (hdec : (parsePackage conn).1 = .ok pReq)
    (hmw : runMiddleware pReq s.networking.middleware 0 = (evs, some e)) :
    (s.handle conn).2.outgoing = conn.outgoing := by
  rw [handle_of_reject s conn pReq evs e hdec hmw]
  exact (parsePackage_frame_conn conn).2.2.2

/-- What the server end sends back for a request that passes the middleware. -/
theorem serverPeer_pass (s : Server) (h : Handler) (data : List Byte) (evs : List Event)
    (hs : s.handler = some h) (hlen : data.length < maxAlloc)
    (hmw : runMiddleware (Package.mk TypeDat data) s.networking.middleware 0 = (evs, none)) :
    serverPeer s (newPackage TypeDat data).Bytes =
      [.data (responseOf (h (Package.mk TypeDat data))).Bytes] := by
  unfold serverPeer
  rw [(handle_pass_healthy s h _ _ evs hs (parsePackage_serverConn data hlen) hmw rfl rfl).2]
  show deliver ([] ++ _) = _
  rw [List.nil_append, deliver_Bytes]

/-- What the client returns when the peer sends back one whole package of a known kind. -/
theorem Request_of_response (cl : Client) (s : Server) (data : List Byte) (kind : PType)
    (b : List Byte) (hkind : kind = TypeDat ∨ kind = TypeErr) (hb : b.length < maxAlloc)
    (hpeer : serverPeer s (newPackage TypeDat data).Bytes = [.data (Package.mk kind b).Bytes]) :
    (cl.Request (dialServer s) data).1 =
      match (Package.mk kind b).Error with
      | some e => .err e
      | none => .ok b := by
  have hdec := parsePackage_of_Bytes kind b
    (Conn.mk [.data (Package.mk kind b).Bytes] (serverPeer s) none none
      (newPackage TypeDat data).Bytes) hkind hb (Or.inl rfl)
  rw [Request_dialServer, hpeer, hdec]

/-- C8. End-to-end success: over a reliable stream and with no middleware registered,
when the handler returns `(b, nil)` for `Package{TypeDat, p}`, `Client.Request(p)`
returns `(b, nil)`, and the handler is called once, with the package of `Type`
`TypeDat` and `Data` `p`. -/
theorem Request_handler_success (cl : Client) (s : Server) (h : Handler) (p b : List Byte)
    (hmw : s.networking.middleware = []) (hs : s.handler = some h)
    (hh : h (Package.mk TypeDat p) = (b, none))
    (hp : p.length < maxAlloc) (hb : b.length < maxAlloc) :
    (cl.Request (dialServer s) p).1 = .ok b ∧
      (s.handle (serverConn (deliver (newPackage TypeDat p).Bytes))).1 =
        [.handler (Package.mk TypeDat p), .write (Package.mk TypeDat b).Bytes, .close] := by
  have hrun : runMiddleware (Package.mk TypeDat p) s.networking.middleware 0 = ([], none) := by
    rw [hmw]
    rfl
  have hresp : responseOf (h (Package.mk TypeDat p)) = Package.mk TypeDat b := by
    rw [hh]
    rfl
  constructor
  · have hpeer := serverPeer_pass s h p [] hs hp hrun
    rw [hresp] at hpeer
    rw [Request_of_response cl s p TypeDat b (Or.inl rfl) hb hpeer]
    rfl
  · have hev := (handle_pass_healthy s h _ _ [] hs (parsePackage_serverConn p hp) hrun rfl
      rfl).1
    rw [hresp] at hev
    exact hev

theorem Request_handler_success_witness :
    ((Client.mk (newNetworking "tcp" "a")).Request
        (dialServer ⟨newNetworking "tcp" "a", some (fun _ => (ascii "OK", none))⟩)
        (ascii "hello")).1 =
      .ok (ascii "OK") ∧
    ((Client.mk (newNetworking "tcp" "a")).Request
        (dialServer ⟨newNetworking "tcp" "a", some (fun q => (q.Data, none))⟩)
        (ascii "hello")).1 =
      .ok (ascii "hello") :=
  ⟨(Request_handler_success _ ⟨newNetworking "tcp" "a", some (fun _ => (ascii "OK", none))⟩ _
      (ascii "hello") (ascii "OK") rfl rfl rfl (by decide) (by decide)).1,
    (Request_handler_success _ ⟨newNetworking "tcp" "a", some (fun q => (q.Data, none))⟩ _
      (ascii "hello") (ascii "hello") rfl rfl rfl (by decide) (by decide)).1⟩

/-- C9. End-to-end application error: over a reliable stream and with no middleware
registered, when the handler fails with an error whose text is `m` (the empty text
included), `Client.Request(p)` returns no result and the error `errors.New(m)`, whose
text is exactly `m`. -/
theorem Request_handler_failure (cl : Client) (s : Server) (h : Handler) (p b m : List Byte)
    (hmw : s.networking.middleware = []) (hs : s.handler = some h)
    (hh : h (Package.mk TypeDat p) = (b, some m))
    (hp : p.length < maxAlloc) (hm : m.length < maxAlloc) :
    (cl.Request (dialServer s) p).1 = .err (.New m) ∧
      ∀ quote, (GoError.New m).Error quote = m := by
  have hrun : runMiddleware (Package.mk TypeDat p) s.networking.middleware 0 = ([], none) := by
    rw [hmw]
    rfl
  have hresp : responseOf (h (Package.mk TypeDat p)) = Package.mk TypeErr m := by
    rw [hh]
    rfl
  have hpeer := serverPeer_pass s h p [] hs hp hrun
  rw [hresp] at hpeer
  rw [Request_of_response cl s p TypeErr m (Or.inr rfl) hm hpeer]
  exact ⟨rfl, fun _ => rfl⟩

theorem Request_handler_failure_witness :
    ((Client.mk (newNetworking "tcp" "a")).Request
        (dialServer ⟨newNetworking "tcp" "a", some (fun _ => ([], some (ascii "NOK")))⟩)
        (ascii "hello")).1 = .err (.New (ascii "NOK")) ∧
    ((Client.mk (newNetworking "tcp" "a")).Request
        (dialServer ⟨newNetworking "tcp" "a", some (fun _ => ([], some []))⟩)
        (ascii "hello")).1 = .err (.New []) :=
  ⟨(Request_handler_failure _
      ⟨newNetworking "tcp" "a", some (fun _ => ([], some (ascii "NOK")))⟩ _
      (ascii "hello") [] (ascii "NOK") rfl rfl rfl (by decide) (by decide)).1,
    (Request_handler_failure _ ⟨newNetworking "tcp" "a", some (fun _ => ([], some []))⟩ _
      (ascii "hello") [] [] rfl rfl rfl (by decide) (by decide)).1⟩

theorem filterMap_middlewareIndex_map (p : Package) (l : List Nat) :
    (l.map (fun j => Event.middleware j p)).filterMap Event.middlewareIndex = l := by
  induction l with
  | nil => rfl
  | cons a l ih => simp [List.filterMap_cons, Event.middlewareIndex, ih]

theorem filter_isHandler_map (p : Package) (l : List Nat) :
    (l.map (fun j => Event.middleware j p)).filter Event.isHandler = [] := by
  induction l with
  | nil => rfl
  | cons a l ih => simp [Event.isHandler]

theorem filter_isWrite_map (p : Package) (l : List Nat) :
    (l.map (fun j => Event.middleware j p)).filter Event.isWrite = [] := by
  induction l with
  | nil => rfl
  | cons a l ih => simp [Event.isWrite]

theorem closeEvents_cases (conn : Conn) :
    closeEvents conn = [.close] ∨ ∃ e, closeEvents conn = [.close, .errHandler e] := by
  unfold closeEvents
  cases conn.Close with
  | none => exact Or.inl rfl
  | some e => exact Or.inr ⟨e, rfl⟩

/-- C10. Middleware short-circuit: when the request was decoded and the middleware at
index `i` is the first of the chain to fail, `Server.handle` calls the middleware at
indices `0..i`, once each and in that order, and none after; it never calls the handler;
it writes nothing to the connection, reports the failure and closes.  The client whose
request it was then fails with the read error of a closed connection, not with a decoded
error package. -/
theorem handle_middleware_short_circuit (s : Server) (conn : Conn) (pReq : Package) (i : Nat)
    (m : Middleware) (e : GoError)
    (hdec : (parsePackage conn).1 = .ok pReq)
    (hi : s.networking.middleware[i]? = some m) (hfail : m pReq = some e)
    (hfirst : ∀ j, j < i → ∀ mj, s.networking.middleware[j]? = some mj → mj pReq = none) :
    (s.handle conn).1 =
        (List.range (i + 1)).map (fun j => Event.middleware j pReq) ++
          .errHandler e :: closeEvents (parsePackage conn).2 ∧
      (s.handle conn).1.filterMap Event.middlewareIndex = List.range (i + 1) ∧
      (s.handle conn).1.filter Event.isHandler = [] ∧
      (s.handle conn).1.filter Event.isWrite = [] ∧
      (s.handle conn).2.outgoing = conn.outgoing ∧
      ∀ (cl : Client) (data : List Byte), data.length < maxAlloc →
        pReq = Package.mk TypeDat data → (cl.Request (dialServer s) data).1 = .err .EOF := by
  have hrun := runMiddleware_first_failure pReq s.networking.middleware 0 i m e hi hfail hfirst
  rw [← List.range_eq_range'] at hrun
  have hev := handle_of_reject s conn pReq _ e hdec hrun
  have hclose := closeEvents_cases (parsePackage conn).2
  refine ⟨by rw [hev], ?_, ?_, ?_, handle_reject_outgoing s conn pReq _ e hdec hrun, ?_⟩
  · rw [hev]
    simp only [List.filterMap_append, filterMap_middlewareIndex_map]
    rcases hclose with h | ⟨e2, h⟩ <;> rw [h] <;> simp [Event.middlewareIndex]
  · rw [hev]
    simp only [List.filter_append, filter_isHandler_map]
    rcases hclose with h | ⟨e2, h⟩ <;> rw [h] <;> simp [Event.isHandler]
  · rw [hev]
    simp only [List.filter_append, filter_isWrite_map]
    rcases hclose with h | ⟨e2, h⟩ <;> rw [h] <;> simp [Event.isWrite]
  · intro cl data hlen hp
    subst hp
    have hout := handle_reject_outgoing s (serverConn (deliver (newPackage TypeDat data).Bytes))
      (Package.mk TypeDat data) _ e (parsePackage_serverConn data hlen) hrun
    have hpeer : serverPeer s (newPackage TypeDat data).Bytes = [] := by
      unfold serverPeer
      rw [hout]
      rfl
    rw [Request_dialServer, hpeer]
    rfl

theorem handle_middleware_short_circuit_witness :
    (Server.handle
        ⟨⟨"tcp", "a", [fun _ => none, fun _ => some (.New (ascii "no")), fun _ => none]⟩,
          some (fun _ => (ascii "OK", none))⟩
        (serverConn (deliver (newPackage TypeDat (ascii "hello")).Bytes))).1 =
      [.middleware 0 (Package.mk TypeDat (ascii "hello")),
        .middleware 1 (Package.mk TypeDat (ascii "hello")),
        .errHandler (.New (ascii "no")), .close] :=
  (handle_middleware_short_circuit
    ⟨⟨"tcp", "a", [fun _ => none, fun _ => some (.New (ascii "no")), fun _ => none]⟩,
      some (fun _ => (ascii "OK", none))⟩
    (serverConn (deliver (newPackage TypeDat (ascii "hello")).Bytes))
    (Package.mk TypeDat (ascii "hello")) 1 (fun _ => some (.New (ascii "no")))
    (.New (ascii "no")) (by decide) rfl rfl
    (fun j hj mj hmj => by
      have hj0 : j = 0 := by omega
      subst hj0
      simp only [List.getElem?_cons_zero, Option.some.injEq] at hmj
      subst hmj
      rfl)).1

/-! ## What `Server.handle` does with a decoded request -/

/-- The middleware loop calls a front part of the chain, in order, each with the request;
its result is the first failure of the chain, and it calls the whole chain when there is
none. -/
theorem runMiddleware_shape (p : Package) (ms : List Middleware) (k : Nat) :
    ∃ n, n ≤ ms.length ∧
      (runMiddleware p ms k).1 = (List.range' k n).map (fun j => Event.middleware j p) ∧
      (runMiddleware p ms k).2 = firstFailure ms p ∧
      (firstFailure ms p = none → n = ms.length) := by
  induction ms generalizing k with
  | nil => exact ⟨0, Nat.le_refl 0, rfl, rfl, fun _ => rfl⟩
  | cons m rest ih =>
    cases hm : m p with
    | some e =>
      refine ⟨1, by simp, ?_, ?_, ?_⟩
      · unfold runMiddleware
        rw [hm]
        rfl
      · unfold runMiddleware firstFailure
        rw [hm]
        simp [List.findSome?, hm]
      · intro h
        unfold firstFailure at h
        simp [List.findSome?, hm] at h
    | none =>
      obtain ⟨n, hn, h1, h2, h3⟩ := ih (k + 1)
      have hff : firstFailure (m :: rest) p = firstFailure rest p := by
        unfold firstFailure
        simp [List.findSome?, hm]
      refine ⟨n + 1, by simp; omega, ?_, ?_, ?_⟩
      · unfold runMiddleware
        rw [hm]
        simp only [h1]
        rw [List.range'_succ]
        rfl
      · unfold runMiddleware
        rw [hm]
        simp only [h2, hff]
      · intro h
        rw [hff] at h
        simp [h3 h]

theorem firstFailure_eq_none (ms : List Middleware) (p : Package)
    (h : ∀ m ∈ ms, m p = none) : firstFailure ms p = none := by
  induction ms with
  | nil => rfl
  | cons m rest ih =>
    have hm : m p = none := h m (List.mem_cons_self m rest)
    unfold firstFailure at ih ⊢
    simp only [List.findSome?, hm]
    exact ih (fun x hx => h x (List.mem_cons_of_mem m hx))

/-- The middleware loop when every middleware passes. -/
theorem runMiddleware_all_pass (p : Package) (ms : List Middleware)
    (h : ∀ m ∈ ms, m p = none) :
    runMiddleware p ms 0 =
      ((List.range ms.length).map (fun j => Event.middleware j p), none) := by
  obtain ⟨n, _, h1, h2, h3⟩ := runMiddleware_shape p ms 0
  have hff := firstFailure_eq_none ms p h
  rw [hff] at h2
  rw [h3 hff] at h1
  rw [List.range_eq_range']
  exact Prod.ext h1 h2

/-- `Server.handle` when every middleware passes and no handler is set. -/
theorem handle_of_nil_handler (s : Server) (conn : Conn) (pReq : Package) (evs : List Event)
    (hs : s.handler = none) (hdec : (parsePackage conn).1 = .ok pReq)
    (hmw : runMiddleware pReq s.networking.middleware 0 = (evs, none)) :
    s.handle conn =
      (evs ++ closeEvents (parsePackage conn).2 ++
        [.panic "invalid memory address or nil pointer dereference"], (parsePackage conn).2) := by
  unfold Server.handle
  cases hpp : parsePackage conn with
  | mk r conn1 =>
    rw [hpp] at hdec
    simp only [] at hdec
    subst hdec
    simp only [hmw, hs]

theorem filter_isWrite_closeEvents (conn : Conn) :
    (closeEvents conn).filter Event.isWrite = [] := by
  rcases closeEvents_cases conn with h | ⟨e, h⟩ <;> rw [h] <;> rfl

theorem filterMap_middlewareIndex_closeEvents (conn : Conn) :
    (closeEvents conn).filterMap Event.middlewareIndex = [] := by
  rcases closeEvents_cases conn with h | ⟨e, h⟩ <;> rw [h] <;> rfl

theorem filter_isHandler_closeEvents (conn : Conn) :
    (closeEvents conn).filter Event.isHandler = [] := by
  rcases closeEvents_cases conn with h | ⟨e, h⟩ <;> rw [h] <;> rfl

theorem filterMap_report_map (p : Package) (l : List Nat) :
    (l.map (fun j => Event.middleware j p)).filterMap Event.report = [] := by
  induction l with
  | nil => rfl
  | cons a l ih => simp [List.filterMap_cons, Event.report, ih]

/-- The write calls of `Server.handle`, and the bytes that left, when every middleware
passes and the handler is set. -/
theorem handle_pass_writes (s : Server) (h : Handler) (conn : Conn) (pReq : Package)
    (hs : s.handler = some h) (hdec : (parsePackage conn).1 = .ok pReq)
    (hpass : ∀ m ∈ s.networking.middleware, m pReq = none) :
    (s.handle conn).1.filter Event.isWrite = [.write (responseOf (h pReq)).Bytes] ∧
      (conn.writeErr = none →
        (s.handle conn).2.outgoing = conn.outgoing ++ (responseOf (h pReq)).Bytes) ∧
      (∀ e, conn.writeErr = some e → (s.handle conn).2.outgoing = conn.outgoing) := by
  have hrun := runMiddleware_all_pass pReq s.networking.middleware hpass
  obtain ⟨_, f2, _, f4⟩ := parsePackage_frame_conn conn
  rw [handle_of_pass s h conn pReq _ hs hdec hrun]
  refine ⟨?_, ?_, ?_⟩
  · simp only [List.filter_append, filter_isWrite_map, filter_isWrite_closeEvents]
    cases ((parsePackage conn).2.Write (responseOf (h pReq)).Bytes).1 <;> rfl
  · intro hw
    rw [hw] at f2
    unfold Conn.Write
    simp only [f2, f4]
  · intro e hw
    rw [hw] at f2
    unfold Conn.Write
    simp only [f2, f4]

/-- C11. Server response wrapping: for a decoded request that passes every middleware,
`Server.handle` calls `conn.Write` exactly once, with `Package{TypeDat, b}.Bytes()` when
the handler returns `(b, nil)` and with `Package{TypeErr, text}.Bytes()` when it returns
an error of text `text`; when the write succeeds those are the only bytes that leave on
the connection. -/
theorem handle_response_wrapping (s : Server) (h : Handler) (conn : Conn) (pReq : Package)
    (hs : s.handler = some h) (hdec : (parsePackage conn).1 = .ok pReq)
    (hpass : ∀ m ∈ s.networking.middleware, m pReq = none) :
    (∀ b, h pReq = (b, none) →
      (s.handle conn).1.filter Event.isWrite = [.write (Package.mk TypeDat b).Bytes] ∧
        (conn.writeErr = none →
          (s.handle conn).2.outgoing = conn.outgoing ++ (Package.mk TypeDat b).Bytes)) ∧
    (∀ b text, h pReq = (b, some text) →
      (s.handle conn).1.filter Event.isWrite = [.write (Package.mk TypeErr text).Bytes] ∧
        (conn.writeErr = none →
          (s.handle conn).2.outgoing = conn.outgoing ++ (Package.mk TypeErr text).Bytes)) := by
  obtain ⟨hw, hout, _⟩ := handle_pass_writes s h conn pReq hs hdec hpass
  constructor
  · intro b hb
    have hresp : responseOf (h pReq) = Package.mk TypeDat b := by rw [hb]; rfl
    rw [hresp] at hw hout
    exact ⟨hw, hout⟩
  · intro b text hb
    have hresp : responseOf (h pReq) = Package.mk TypeErr text := by rw [hb]; rfl
    rw [hresp] at hw hout
    exact ⟨hw, hout⟩

theorem handle_response_wrapping_witness :
    (Server.handle ⟨newNetworking "tcp" "a", some (fun _ => ([], some (ascii "NOK")))⟩
        (serverConn (deliver (newPackage TypeDat (ascii "hello")).Bytes))).1.filter
        Event.isWrite = [.write (ascii "000000000000000000042NOK")] ∧
      (Server.handle ⟨newNetworking "tcp" "a", some (fun _ => ([], some (ascii "NOK")))⟩
        (serverConn (deliver (newPackage TypeDat (ascii "hello")).Bytes))).2.outgoing =
        ascii "000000000000000000042NOK" :=
  have h := (handle_response_wrapping
    ⟨newNetworking "tcp" "a", some (fun _ => ([], some (ascii "NOK")))⟩ _
    (serverConn (deliver (newPackage TypeDat (ascii "hello")).Bytes))
    (Package.mk TypeDat (ascii "hello")) rfl (by decide)
    (fun m hm => by cases hm)).2 [] (ascii "NOK") rfl
  ⟨h.1, h.2 rfl⟩

/-- The reports `Server.handle` makes to the error handler on a connection whose write
and close succeed. -/
theorem handle_reports_healthy (s : Server) (conn : Conn)
    (hw : conn.writeErr = none) (hc : conn.closeErr = none) :
    (s.handle conn).1.filterMap Event.report =
      match (parsePackage conn).1 with
      | .err e => [e]
      | .panic _ => []
      | .ok pReq =>
        match firstFailure s.networking.middleware pReq with
        | some e => [e]
        | none => [] := by
  obtain ⟨_, f2, f3, f4⟩ := parsePackage_frame_conn conn
  rw [hw] at f2
  rw [hc] at f3
  have hclose : closeEvents (parsePackage conn).2 = [.close] := by
    unfold closeEvents Conn.Close
    rw [f3]
  cases hdec : (parsePackage conn).1 with
  | err e =>
    rw [handle_of_decode_error s conn e hdec, hclose]
    rfl
  | panic msg =>
    have hh : s.handle conn = (closeEvents (parsePackage conn).2 ++ [.panic msg],
        (parsePackage conn).2) := by
      unfold Server.handle
      cases hpp : parsePackage conn with
      | mk r conn1 =>
        rw [hpp] at hdec
        simp only [] at hdec
        subst hdec
        rfl
    rw [hh, hclose]
    rfl
  | ok pReq =>
    obtain ⟨n, _, h1, h2, _⟩ := runMiddleware_shape pReq s.networking.middleware 0
    cases hff : firstFailure s.networking.middleware pReq with
    | some e =>
      rw [hff] at h2
      rw [handle_of_reject s conn pReq _ e hdec (Prod.ext h1 h2), hclose]
      simp only [List.filterMap_append, filterMap_report_map, hff]
      rfl
    | none =>
      rw [hff] at h2
      cases hs : s.handler with
      | none =>
        rw [handle_of_nil_handler s conn pReq _ hs hdec (Prod.ext h1 h2), hclose]
        simp only [List.filterMap_append, filterMap_report_map, hff]
        rfl
      | some h =>
        rw [(handle_pass_healthy s h conn pReq _ hs hdec (Prod.ext h1 h2) hw hc).1]
        simp only [List.filterMap_append, filterMap_report_map, hff]
        rfl

/-- C12. Error-handler usage in `Server.handle`: when the connection's write and close
succeed, the error handler receives exactly one report, the decode error, when decoding
fails; exactly one, the error of the first failing middleware, when a middleware
rejects; and none otherwise.  In particular an error returned by the handler is not
reported. -/
theorem handle_error_reports (s : Server) (conn : Conn)
    (hw : conn.writeErr = none) (hc : conn.closeErr = none) :
    (∀ e, (parsePackage conn).1 = .err e → (s.handle conn).1.filterMap Event.report = [e]) ∧
    (∀ pReq e, (parsePackage conn).1 = .ok pReq →
      firstFailure s.networking.middleware pReq = some e →
      (s.handle conn).1.filterMap Event.report = [e]) ∧
    (∀ pReq, (parsePackage conn).1 = .ok pReq →
      firstFailure s.networking.middleware pReq = none →
      (s.handle conn).1.filterMap Event.report = []) ∧
    (∀ msg, (parsePackage conn).1 = .panic msg →
      (s.handle conn).1.filterMap Event.report = []) := by
  have h := handle_reports_healthy s conn hw hc
  refine ⟨?_, ?_, ?_, ?_⟩
  · intro e hdec
    rw [h, hdec]
  · intro pReq e hdec hff
    rw [h, hdec]
    simp only [hff]
  · intro pReq hdec hff
    rw [h, hdec]
    simp only [hff]
  · intro msg hdec
    rw [h, hdec]

theorem handle_error_reports_witness :
    (Server.handle ⟨newNetworking "tcp" "a", some (fun _ => ([], some (ascii "NOK")))⟩
        (serverConn (deliver (newPackage TypeDat (ascii "hello")).Bytes))).1.filterMap
        Event.report = [] ∧
      (Server.handle ⟨newNetworking "tcp" "a", some (fun _ => ([], some (ascii "NOK")))⟩
        (serverConn [.data (ascii "x")])).1.filterMap Event.report =
        [.ErrSyntax "ParseUint" (ascii "x" ++ List.replicate 19 0)] :=
  ⟨(handle_error_reports ⟨newNetworking "tcp" "a", some (fun _ => ([], some (ascii "NOK")))⟩
      (serverConn (deliver (newPackage TypeDat (ascii "hello")).Bytes)) rfl rfl).2.2.1
      (Package.mk TypeDat (ascii "hello")) (by decide) rfl,
    (handle_error_reports ⟨newNetworking "tcp" "a", some (fun _ => ([], some (ascii "NOK")))⟩
      (serverConn [.data (ascii "x")]) rfl rfl).1 _ (by decide)⟩

/-- C14. Server decode failure: when `parsePackage` fails on the connection,
`Server.handle` reports the decode error to the error handler and closes the
connection; it calls no middleware and not the handler, and writes nothing. -/
theorem handle_decode_failure (s : Server) (conn : Conn) (e : GoError)
    (hdec : (parsePackage conn).1 = .err e) :
    (s.handle conn).1 = .errHandler e :: closeEvents (parsePackage conn).2 ∧
      (s.handle conn).1.head? = some (.errHandler e) ∧
      Event.close ∈ (s.handle conn).1 ∧
      (s.handle conn).1.filterMap Event.middlewareIndex = [] ∧
      (s.handle conn).1.filter Event.isHandler = [] ∧
      (s.handle conn).1.filter Event.isWrite = [] ∧
      (s.handle conn).2.outgoing = conn.outgoing := by
  have hev := handle_of_decode_error s conn e hdec
  rw [hev]
  refine ⟨rfl, rfl, ?_, ?_, ?_, ?_, (parsePackage_frame_conn conn).2.2.2⟩
  · rcases closeEvents_cases (parsePackage conn).2 with h | ⟨e2, h⟩ <;> rw [h] <;> simp
  · show List.filterMap Event.middlewareIndex (closeEvents (parsePackage conn).2) = []
    exact filterMap_middlewareIndex_closeEvents _
  · show List.filter Event.isHandler (closeEvents (parsePackage conn).2) = []
    exact filter_isHandler_closeEvents _
  · show List.filter Event.isWrite (closeEvents (parsePackage conn).2) = []
    exact filter_isWrite_closeEvents _

theorem handle_decode_failure_witness :
    (Server.handle ⟨newNetworking "tcp" "a", some (fun _ => (ascii "OK", none))⟩
        (serverConn [.data (ascii "0000000000000000000x1a")])).1 =
      [.errHandler (.ErrSyntax "ParseUint" (ascii "0000000000000000000x")), .close] :=
  (handle_decode_failure ⟨newNetworking "tcp" "a", some (fun _ => (ascii "OK", none))⟩
    (serverConn [.data (ascii "0000000000000000000x1a")])
    (.ErrSyntax "ParseUint" (ascii "0000000000000000000x")) (by decide)).1

/-- C13. Client translation of the response kind: `Package.Error()` of a decoded
response is `errors.New` of the payload, whose text is the payload, exactly when the
`Type` is `TypeErr`, and nil for every other `Type`; `Client.Request` fails with that
error in the first case and returns the payload unchanged, with a nil error, in the
second. -/
theorem Request_translates_kind (cl : Client) (dial : Dialer) (conn : Conn) (data : List Byte)
    (pRes : Package)
    (hdial : dial cl.networking.network cl.networking.address = .ok conn)
    (hw : conn.writeErr = none)
    (hdec : (parsePackage (conn.Write (newPackage TypeDat data).Bytes).2).1 = .ok pRes) :
    (pRes.Typ = TypeErr →
      pRes.Error = some (.New pRes.Data) ∧ (∀ quote, (GoError.New pRes.Data).Error quote = pRes.Data) ∧
        (cl.Request dial data).1 = .err (.New pRes.Data)) ∧
    (pRes.Typ ≠ TypeErr →
      pRes.Error = none ∧ (cl.Request dial data).1 = .ok pRes.Data) := by
  have hwr : (conn.Write (newPackage TypeDat data).Bytes).1 = none := by
    unfold Conn.Write
    rw [hw]
  have hreq : (cl.Request dial data).1 =
      match pRes.Error with
      | some e => .err e
      | none => .ok pRes.Data := by
    unfold Client.Request
    rw [hdial]
    simp only []
    cases hcw : conn.Write (newPackage TypeDat data).Bytes with
    | mk werr conn1 =>
      rw [hcw] at hwr hdec
      simp only [] at hwr hdec
      subst hwr
      simp only []
      cases hpp : parsePackage conn1 with
      | mk r conn2 =>
        rw [hpp] at hdec
        simp only [] at hdec
        subst hdec
        simp only []
        cases pRes.Error <;> rfl
  constructor
  · intro ht
    have herr : pRes.Error = some (.New pRes.Data) := by
      unfold Package.Error PType.IsErr
      rw [ht]
      rfl
    refine ⟨herr, fun _ => rfl, ?_⟩
    rw [hreq, herr]
  · intro ht
    have herr : pRes.Error = none := by
      unfold Package.Error PType.IsErr
      rw [if_neg]
      simpa using ht
    refine ⟨herr, ?_⟩
    rw [hreq, herr]

theorem Request_translates_kind_witness :
    ((Client.mk (newNetworking "tcp" "a")).Request
        (fun _ _ => .ok ⟨[], fun _ => [.data (ascii "000000000000000000033ab")], none, none, []⟩)
        (ascii "hello")).1 = .ok (ascii "ab") ∧
      ((Client.mk (newNetworking "tcp" "a")).Request
        (fun _ _ => .ok ⟨[], fun _ => [.data (ascii "000000000000000000032ab")], none, none, []⟩)
        (ascii "hello")).1 = .err (.New (ascii "ab")) :=
  ⟨((Request_translates_kind (Client.mk (newNetworking "tcp" "a"))
      (fun _ _ => .ok ⟨[], fun _ => [.data (ascii "000000000000000000033ab")], none, none, []⟩)
      _ (ascii "hello") (Package.mk 3 (ascii "ab")) rfl rfl (by decide)).2 (by decide)).2,
    ((Request_translates_kind (Client.mk (newNetworking "tcp" "a"))
      (fun _ _ => .ok ⟨[], fun _ => [.data (ascii "000000000000000000032ab")], none, none, []⟩)
      _ (ascii "hello") (Package.mk TypeErr (ascii "ab")) rfl rfl (by decide)).1 rfl).2.2⟩

theorem RegisterMiddleware_fields (n : networking) (hs : List Middleware) :
    (n.RegisterMiddleware hs).middleware = n.middleware ++ hs ∧
      (n.RegisterMiddleware hs).network = n.network ∧
      (n.RegisterMiddleware hs).address = n.address := by
  unfold networking.RegisterMiddleware
  induction hs generalizing n with
  | nil => simp
  | cons m rest ih =>
    obtain ⟨a, b, c⟩ := ih { n with middleware := n.middleware ++ [m] }
    simp only [List.foldl_cons]
    exact ⟨by rw [a]; simp, b, c⟩

/-- The events of `Server.handle` on a decoded request start with the calls of a front
part of the chain, in order, and hold no other middleware call. -/
theorem handle_decoded_shape (s : Server) (conn : Conn) (pReq : Package)
    (hdec : (parsePackage conn).1 = .ok pReq) :
    ∃ k tail, k ≤ s.networking.middleware.length ∧
      (s.handle conn).1 = (List.range k).map (fun j => Event.middleware j pReq) ++ tail ∧
      tail.filterMap Event.middlewareIndex = [] ∧
      (firstFailure s.networking.middleware pReq = none →
        k = s.networking.middleware.length ∧
          ∀ h, s.handler = some h → tail.head? = some (.handler pReq)) := by
  obtain ⟨n, hn, h1, h2, h3⟩ := runMiddleware_shape pReq s.networking.middleware 0
  rw [← List.range_eq_range'] at h1
  cases hff : firstFailure s.networking.middleware pReq with
  | some e =>
    rw [hff] at h2
    refine ⟨n, _, hn, by rw [handle_of_reject s conn pReq _ e hdec (Prod.ext h1 h2)], ?_, ?_⟩
    · rw [List.filterMap_cons]
      exact filterMap_middlewareIndex_closeEvents _
    · intro hc
      cases hc
  | none =>
    rw [hff] at h2
    cases hs : s.handler with
    | none =>
      refine ⟨n, _, hn, by
        rw [handle_of_nil_handler s conn pReq _ hs hdec (Prod.ext h1 h2), List.append_assoc],
        ?_, ?_⟩
      · rw [List.filterMap_append, filterMap_middlewareIndex_closeEvents]
        rfl
      · intro _
        exact ⟨h3 hff, fun h hh => by cases hh⟩
    | some h =>
      refine ⟨n, _, hn, by
        rw [handle_of_pass s h conn pReq _ hs hdec (Prod.ext h1 h2), List.append_assoc,
          List.append_assoc], ?_, ?_⟩
      · simp only [List.filterMap_append, filterMap_middlewareIndex_closeEvents]
        cases ((parsePackage conn).2.Write (responseOf (h pReq)).Bytes).1 <;> rfl
      · intro _
        exact ⟨h3 hff, fun h' _ => rfl⟩

/-- C17. Middleware runs in registration order: `RegisterMiddleware` keeps the list it
finds as a prefix and appends its arguments in order, so two registrations concatenate.
`Server.handle` applies the registered list from the front to the decoded request:
when the middleware at index `i` of that list is the first to fail, the calls made are
those of indices `0..i`, in order, and the error reported is the one that middleware
returned; when every middleware of the list passes, the calls are those of the whole
list, in order, and the call of the handler comes after all of them, with no middleware
call after it. -/
theorem middleware_registration_order (n : networking) (a b : List Middleware) (s : Server)
    (conn : Conn) (pReq : Package)
    (hreg : s.networking = (n.RegisterMiddleware a).RegisterMiddleware b)
    (hdec : (parsePackage conn).1 = .ok pReq) :
    (n.RegisterMiddleware a).middleware = n.middleware ++ a ∧
      s.networking.middleware = n.middleware ++ a ++ b ∧
      (∀ i m e, (n.middleware ++ a ++ b)[i]? = some m → m pReq = some e →
        (∀ j, j < i → ∀ mj, (n.middleware ++ a ++ b)[j]? = some mj → mj pReq = none) →
        (s.handle conn).1 =
          (List.range (i + 1)).map (fun j => Event.middleware j pReq) ++
            .errHandler e :: closeEvents (parsePackage conn).2) ∧
      ((∀ m ∈ n.middleware ++ a ++ b, m pReq = none) →
        ∃ tail,
          (s.handle conn).1 =
            (List.range (n.middleware ++ a ++ b).length).map
              (fun j => Event.middleware j pReq) ++ tail ∧
          tail.filterMap Event.middlewareIndex = [] ∧
          ∀ h, s.handler = some h → tail.head? = some (.handler pReq)) := by
  have h1 := (RegisterMiddleware_fields n a).1
  have h2 : s.networking.middleware = n.middleware ++ a ++ b := by
    rw [hreg, (RegisterMiddleware_fields _ b).1, h1]
  refine ⟨h1, h2, ?_, ?_⟩
  · intro i m e hi hfail hfirst
    rw [← h2] at hi hfirst
    have hrun := runMiddleware_first_failure pReq s.networking.middleware 0 i m e hi hfail
      hfirst
    rw [← List.range_eq_range'] at hrun
    rw [handle_of_reject s conn pReq _ e hdec hrun]
  · intro hpass
    rw [← h2] at hpass ⊢
    obtain ⟨k, tail, _, hev, htail, hk⟩ := handle_decoded_shape s conn pReq hdec
    obtain ⟨hlen, hhead⟩ := hk (firstFailure_eq_none _ pReq hpass)
    rw [hlen] at hev
    exact ⟨tail, hev, htail, hhead⟩

theorem middleware_registration_order_witness :
    (Server.handle
        ⟨((newNetworking "tcp" "a").RegisterMiddleware [fun _ => none]).RegisterMiddleware
          [fun _ => some (.New (ascii "first")), fun _ => some (.New (ascii "second"))],
          some (fun _ => (ascii "OK", none))⟩
        (serverConn (deliver (newPackage TypeDat (ascii "hi")).Bytes))).1 =
      [.middleware 0 (Package.mk TypeDat (ascii "hi")),
        .middleware 1 (Package.mk TypeDat (ascii "hi")),
        .errHandler (.New (ascii "first")), .close] :=
  (middleware_registration_order (newNetworking "tcp" "a") [fun _ => none]
    [fun _ => some (.New (ascii "first")), fun _ => some (.New (ascii "second"))]
    ⟨((newNetworking "tcp" "a").RegisterMiddleware [fun _ => none]).RegisterMiddleware
      [fun _ => some (.New (ascii "first")), fun _ => some (.New (ascii "second"))],
      some (fun _ => (ascii "OK", none))⟩
    (serverConn (deliver (newPackage TypeDat (ascii "hi")).Bytes))
    (Package.mk TypeDat (ascii "hi")) rfl (by decide)).2.2.1 1
    (fun _ => some (.New (ascii "first"))) (.New (ascii "first")) rfl rfl
    (fun j hj mj hmj => by
      have hj0 : j = 0 := by omega
      subst hj0
      have hm : (fun _ => none : Middleware) = mj := Option.some.inj hmj
      subst hm
      rfl)

/-- C18. Construction: `NewServer(n, a)` and `NewClient(n, a)` carry the network `n` and
the address `a` unchanged, and an empty middleware list. -/
theorem construction_fields (n a : String) :
    (NewServer n a).networking.network = n ∧ (NewServer n a).networking.address = a ∧
      (NewServer n a).networking.middleware = [] ∧
      (NewClient n a).networking.network = n ∧ (NewClient n a).networking.address = a ∧
      (NewClient n a).networking.middleware = [] :=
  ⟨rfl, rfl, rfl, rfl, rfl, rfl⟩

/-! ## The accept loop -/

/-- The accept loop reports every accept failure, starts one goroutine for every accepted
connection, and never closes the listener. -/
theorem acceptLoop_events (s : Server) (rs : List AcceptResult) (i : Nat) :
    (acceptLoop s rs i).filterMap ListenEvent.report = acceptFailures rs ∧
      ((acceptLoop s rs i).filter ListenEvent.isGo).length = acceptedCount rs ∧
      ListenEvent.listenerClose ∉ acceptLoop s rs i := by
  induction rs generalizing i with
  | nil => exact ⟨rfl, rfl, by simp [acceptLoop]⟩
  | cons r rest ih =>
    obtain ⟨a, b, c⟩ := ih (i + 1)
    cases r with
    | fail e =>
      refine ⟨?_, ?_, ?_⟩
      · simp only [acceptLoop, acceptFailures, List.filterMap_cons, ListenEvent.report, a]
      · simp only [acceptLoop, acceptedCount, List.filter_cons, ListenEvent.isGo]
        simpa using b
      · simp only [acceptLoop, List.mem_cons, not_or]
        exact ⟨by simp, c⟩
    | conn cn =>
      refine ⟨?_, ?_, ?_⟩
      · simp only [acceptLoop, acceptFailures, List.filterMap_cons, ListenEvent.report, a]
      · simp only [acceptLoop, acceptedCount, List.filter_cons, ListenEvent.isGo]
        simpa using b
      · simp only [acceptLoop, List.mem_cons, not_or]
        exact ⟨by simp, c⟩

/-- C15, as the code has it. When the bind fails, `Server.Listen` returns that error and
does nothing else.  After a successful bind every accept failure, of whatever kind, is
reported to the error handler and accepting goes on; every accepted connection is handed
to a goroutine; `Listen` does not return and the listener is not closed. -/
theorem Listen_accept_loop (s : Server) (listen : ListenFn) (handler : Option Handler) :
    (∀ e, listen s.networking.network s.networking.address = .error e →
      (s.Listen listen handler).outcome = .returned e ∧ (s.Listen listen handler).events = []) ∧
    (∀ l, listen s.networking.network s.networking.address = .ok l →
      (s.Listen listen handler).outcome = .accepting ∧
        (s.Listen listen handler).events.filterMap ListenEvent.report =
          acceptFailures l.accepts ∧
        ((s.Listen listen handler).events.filter ListenEvent.isGo).length =
          acceptedCount l.accepts ∧
        ListenEvent.listenerClose ∉ (s.Listen listen handler).events) := by
  constructor
  · intro e he
    have hrun : s.Listen listen handler = ⟨{ s with handler := handler }, [], .returned e⟩ := by
      unfold Server.Listen
      simp only [he]
    rw [hrun]
    exact ⟨rfl, rfl⟩
  · intro l hl
    have hrun : s.Listen listen handler =
        ⟨{ s with handler := handler },
          acceptLoop { s with handler := handler } l.accepts 0, .accepting⟩ := by
      unfold Server.Listen
      simp only [hl]
    rw [hrun]
    exact ⟨rfl, acceptLoop_events _ l.accepts 0⟩

theorem Listen_accept_loop_witness :
    ((NewServer "tcp" "a").Listen
        (fun _ _ => .ok ⟨[.fail (.New (ascii "too many open files")),
          .conn (serverConn (deliver (newPackage TypeDat (ascii "hi")).Bytes))], none⟩)
        (some (fun _ => (ascii "OK", none)))).outcome = .accepting ∧
      ((NewServer "tcp" "a").Listen (fun _ _ => .error (.New (ascii "address in use")))
        (some (fun _ => (ascii "OK", none)))).outcome =
        .returned (.New (ascii "address in use")) :=
  ⟨((Listen_accept_loop (NewServer "tcp" "a")
      (fun _ _ => .ok ⟨[.fail (.New (ascii "too many open files")),
        .conn (serverConn (deliver (newPackage TypeDat (ascii "hi")).Bytes))], none⟩)
      (some (fun _ => (ascii "OK", none)))).2 _ rfl).1,
    ((Listen_accept_loop (NewServer "tcp" "a")
      (fun _ _ => .error (.New (ascii "address in use")))
      (some (fun _ => (ascii "OK", none)))).1 _ rfl).1⟩

/-- C15 fails as stated: when `Accept` fails because the listener has been closed,
`Server.Listen` reports the failure like any other and stays in its loop; it does not
return the error and does not close the listener. -/
theorem Listen_closed_listener_keeps_accepting :
    ((NewServer "tcp" "a").Listen
        (fun _ _ => .ok ⟨[.fail (.New (ascii "use of closed network connection")),
          .fail (.New (ascii "use of closed network connection"))], none⟩)
        (some (fun _ => (ascii "OK", none)))).outcome ≠
        .returned (.New (ascii "use of closed network connection")) ∧
      ((NewServer "tcp" "a").Listen
        (fun _ _ => .ok ⟨[.fail (.New (ascii "use of closed network connection")),
          .fail (.New (ascii "use of closed network connection"))], none⟩)
        (some (fun _ => (ascii "OK", none)))).events =
        [.errHandler (.New (ascii "use of closed network connection")),
          .errHandler (.New (ascii "use of closed network connection"))] := by
  decide

/-! ## The length field and the type bytes -/

theorem FormatUint_digit (t : Nat) (h : t ≤ 9) : FormatUint t = [digitByte t] :=
  formatBits_small t t (by omega)

/-- C16, as the code has it. For every package whose `Type` is a single decimal digit
(0 to 9) and whose payload length is representable, `TypeBytes()` is one byte, the
number in the length field is `len(payload)` plus that one byte, and
`len(p.Bytes()) = 20 + p.Size()`. -/
theorem Bytes_length_invariant (p : Package) (ht : p.Typ ≤ 9) (h : p.Data.length < 2 ^ 63) :
    p.TypeBytes.length = 1 ∧
      decVal (p.Bytes.take 20) = p.Data.length + p.TypeBytes.length ∧
      p.Size = p.Data.length + p.TypeBytes.length ∧
      p.Bytes.length = 20 + p.Size := by
  have htb : p.TypeBytes = [digitByte p.Typ] := by
    unfold Package.TypeBytes
    rw [Nat.mod_eq_of_lt (Nat.lt_of_le_of_lt ht (by norm_num))]
    exact FormatUint_digit p.Typ ht
  have hsize : p.Size = p.Data.length + 1 := by
    unfold Package.Size
    apply Nat.mod_eq_of_lt
    norm_num at h ⊢
    omega
  have hlt : p.Data.length + 1 < 10 ^ 20 := by
    norm_num at h ⊢
    omega
  obtain ⟨a, _, c⟩ := Sprintf020d_spec (p.Data.length + 1) hlt
  have hsb : p.SizeBytes = Sprintf020d (p.Data.length + 1) := by
    rw [Package.SizeBytes, hsize]
  have htake : p.Bytes.take 20 = p.SizeBytes := by
    rw [Bytes_eq, List.take_left' (by rw [hsb, a])]
  refine ⟨by rw [htb]; rfl, ?_, ?_, ?_⟩
  · rw [htake, hsb, c, htb]
    rfl
  · rw [hsize, htb]
    rfl
  · rw [Bytes_eq, hsize, List.length_append, List.length_append, hsb, a, htb]
    simp
    omega

theorem Bytes_length_invariant_witness :
    (Package.mk 7 (ascii "abc")).Bytes.length = 20 + (Package.mk 7 (ascii "abc")).Size :=
  (Bytes_length_invariant (Package.mk 7 (ascii "abc")) (by decide) (by decide)).2.2.2

/-- C16 fails as stated: for `Package{Type(10), ""}` the type bytes are the two bytes
`"10"`, the length field reads 1, and `Bytes()` is 22 bytes long while
`20 + Size()` is 21. -/
theorem Bytes_length_two_digit_type :
    (Package.mk 10 []).Bytes = ascii "00000000000000000001" ++ ascii "10" ∧
      (Package.mk 10 []).Bytes.length = 22 ∧ 20 + (Package.mk 10 []).Size = 21 ∧
      decVal ((Package.mk 10 []).Bytes.take 20) ≠
        (Package.mk 10 []).Data.length + (Package.mk 10 []).TypeBytes.length := by
  decide

/-! ## Panics of the decoder -/

/-- C19 at a failing input. On the 20 bytes `"00000000000000000000"` the declared length
is 0, the block is empty, and taking its first byte is an out-of-range slice access:
`parsePackage` panics instead of returning an error.  A declared length above what can
be allocated panics in `make`. -/
theorem parsePackage_zero_length_panics :
    (parsePackage (serverConn [.data (ascii "00000000000000000000")])).1 =
        .panic "slice bounds out of range [:1] with capacity 0" ∧
      (parsePackage (serverConn [.data (ascii "18446744073709551615")])).1 =
        .panic "makeslice: len out of range" := by
  decide

/-! ## Canonical encoding -/

/-- Two runs of digits of the same length that denote the same number are the same. -/
theorem digits_eq_of_decVal_eq (n : Nat) : ∀ xs ys : List Byte, xs.length = n → ys.length = n →
    (∀ c ∈ xs, isDigit c) → (∀ c ∈ ys, isDigit c) → decVal xs = decVal ys → xs = ys := by
  induction n with
  | zero =>
    intro xs ys hx hy _ _ _
    rw [List.length_eq_zero.mp hx, List.length_eq_zero.mp hy]
  | succ n ih =>
    intro xs ys hx hy dx dy hv
    rcases List.eq_nil_or_concat xs with rfl | ⟨xs1, a, rfl⟩
    · cases hx
    rcases List.eq_nil_or_concat ys with rfl | ⟨ys1, b, rfl⟩
    · cases hy
    simp only [List.concat_eq_append] at hx hy dx dy hv ⊢
    rw [decVal_append_singleton, decVal_append_singleton] at hv
    have ha : isDigit a := dx a (by simp)
    have hb : isDigit b := dy b (by simp)
    unfold isDigit at ha hb
    have hab : a.toNat = b.toNat := by omega
    have hvv : decVal xs1 = decVal ys1 := by omega
    have hrec := ih xs1 ys1 (by simpa using hx) (by simpa using hy)
      (fun c hc => dx c (List.mem_append_left _ hc))
      (fun c hc => dy c (List.mem_append_left _ hc)) hvv
    rw [hrec, UInt8.ext hab]

/-- A digit is the byte `ParseUint` and `FormatUint` agree on. -/
theorem digitByte_of_isDigit (c : Byte) (h : isDigit c) : digitByte (c.toNat - 48) = c := by
  unfold isDigit at h
  apply UInt8.ext
  show (48 + (c.toNat - 48)) % 256 = c.toNat
  omega

/-- What a successful decoding says about its two reads. -/
theorem parsePackage_ok_inv (c : Conn) (p : Package) (h : (parsePackage c).1 = .ok p) :
    ∃ lu tp, (c.Read (make 20)).1.err = none ∧
      ParseUint (c.Read (make 20)).1.buf 0 = .ok lu ∧ lu ≤ maxAlloc ∧
      ((c.Read (make 20)).2.Read (make lu)).1.err = none ∧
      1 ≤ ((c.Read (make 20)).2.Read (make lu)).1.buf.length ∧
      ParseUint (((c.Read (make 20)).2.Read (make lu)).1.buf.take 1) 0 = .ok tp ∧
      p = newPackage (tp % 2 ^ IntSize) (((c.Read (make 20)).2.Read (make lu)).1.buf.drop 1) := by
  rw [parsePackage_fst] at h
  cases h1 : (c.Read (make 20)).1.err with
  | some e => rw [h1] at h; cases h
  | none =>
    rw [h1] at h
    simp only [] at h
    cases h2 : ParseUint (c.Read (make 20)).1.buf 0 with
    | error e => rw [h2] at h; cases h
    | ok lu =>
      rw [h2] at h
      simp only [] at h
      by_cases h3 : maxAlloc < lu
      · rw [if_pos h3] at h; cases h
      · rw [if_neg h3] at h
        cases h4 : ((c.Read (make 20)).2.Read (make lu)).1.err with
        | some e => rw [h4] at h; cases h
        | none =>
          rw [h4] at h
          simp only [] at h
          by_cases h5 : ((c.Read (make 20)).2.Read (make lu)).1.buf.length < 1
          · rw [if_pos h5] at h; cases h
          · rw [if_neg h5] at h
            cases h6 : ParseUint (((c.Read (make 20)).2.Read (make lu)).1.buf.take 1) 0 with
            | error e => rw [h6] at h; cases h
            | ok tp =>
              rw [h6] at h
              simp only [] at h
              injection h with h
              exact ⟨lu, tp, rfl, rfl, Nat.le_of_not_lt h3, h4, Nat.le_of_not_lt h5, h6, h.symm⟩


/-- Re-encoding a decoded package gives back the wire message, when both reads were
filled in full. -/
theorem Bytes_of_decoded (c : Conn) (p : Package) (hfull : readsInFull c)
    (hdec : (parsePackage c).1 = .ok p) :
    p.Bytes = wireMessage c ∧ p.Bytes.length = 20 + (p.Data.length + 1) ∧
      decVal ((streamBytes c.incoming).take 20) = p.Data.length + 1 := by
  obtain ⟨lu, tp, e1, hp1, hmax, e2, hlen2, hp2, hp⟩ := parsePackage_ok_inv c p hdec
  obtain ⟨_, hdig, hval, hlt⟩ := ParseUint_ok_inv _ lu hp1
  obtain ⟨hn1, hn2⟩ := hfull
  rw [hval] at hn2
  -- the first read
  rcases Read_make c 20 (by norm_num) with ⟨e, he⟩ | ⟨got, tail, hr, _, hs, hs1⟩
  · rw [e1] at he
    cases he
  rw [hr] at hn1 hdig hval
  simp only [] at hn1 hdig hval
  have hbuf1 : got ++ make (20 - got.length) = got := by
    rw [hn1]
    simp [make]
  rw [hbuf1] at hdig hval
  -- the second read
  have hlu : 0 < lu := by
    by_contra h0
    have hz : lu = 0 := by omega
    rw [hz] at hlen2
    have : ((c.Read (make 20)).2.Read (make 0)).1.buf = [] := by
      unfold Conn.Read
      rfl
    rw [this] at hlen2
    simp at hlen2
  rcases Read_make (c.Read (make 20)).2 lu hlu with ⟨e, he⟩ | ⟨got2, tail2, hr2, hle2, hs2, _⟩
  · rw [e2] at he
    cases he
  rw [hr2] at hn2 hp2 hp
  simp only [] at hn2 hp2 hp
  have hbuf2 : got2 ++ make (lu - got2.length) = got2 := by
    rw [hn2]
    simp [make]
  rw [hbuf2] at hp2 hp
  -- the block starts with a digit
  cases got2 with
  | nil =>
    simp at hn2
    omega
  | cons b0 rest =>
    simp only [List.take_succ_cons, List.take_zero, List.drop_succ_cons, List.drop_zero] at hp2 hp
    obtain ⟨_, hd0, hv0, _⟩ := ParseUint_ok_inv _ tp hp2
    have hb0 : isDigit b0 := hd0 b0 (by simp)
    have htp : tp = b0.toNat - 48 := by
      rw [← hv0]
      simp [decVal, decStep]
    have htp9 : tp ≤ 9 := by
      unfold isDigit at hb0
      omega
    have hrest : rest.length + 1 = lu := by
      rw [← hn2]
      simp
    -- the encoding of the result
    have hstream : streamBytes c.incoming = got ++ ((b0 :: rest) ++ tail2) := by
      rw [hs, ← hs2, hs1]
    have hlu20 : lu < 10 ^ 20 := by
      norm_num at hlt ⊢
      omega
    obtain ⟨sl, sd, sv⟩ := Sprintf020d_spec lu hlu20
    have hhdr : Sprintf020d lu = got :=
      digits_eq_of_decVal_eq 20 _ _ sl hn1 sd hdig (by rw [sv, hval])
    have htake : (streamBytes c.incoming).take 20 = got := by
      rw [hstream, List.take_left' hn1]
    have hbytes : p.Bytes = got ++ (b0 :: rest) := by
      rw [hp, Bytes_eq]
      have hsz : (newPackage (tp % 2 ^ IntSize) rest).SizeBytes = got := by
        show Sprintf020d ((rest.length + 1) % 2 ^ 64) = got
        rw [hrest, Nat.mod_eq_of_lt hlt, hhdr]
      have htb : (newPackage (tp % 2 ^ IntSize) rest).TypeBytes = [b0] := by
        show FormatUint (tp % 2 ^ IntSize % 2 ^ 64) = [b0]
        have h1 : tp % 2 ^ IntSize = tp := Nat.mod_eq_of_lt (by unfold IntSize; norm_num; omega)
        have h2 : tp % 2 ^ 64 = tp := Nat.mod_eq_of_lt (by norm_num; omega)
        rw [h1, h2, FormatUint_digit tp htp9, htp, digitByte_of_isDigit b0 hb0]
      rw [hsz, htb]
      rfl
    have hdata : p.Data.length + 1 = lu := by
      rw [hp]
      exact hrest
    refine ⟨?_, ?_, ?_⟩
    · unfold wireMessage
      rw [htake, hval, hstream, ← List.append_assoc, ← hn1]
      have hl : (got ++ (b0 :: rest)).length = got.length + lu := by
        rw [List.length_append, ← hrest]
        simp
      rw [hbytes, List.take_left' hl]
    · rw [hbytes, List.length_append, hn1, hdata, ← hrest]
      simp
    · rw [htake, hval, hdata]

/-- C20. Canonical encoding: when `parsePackage` succeeds on a stream with both reads
filled in full, re-encoding its result gives back exactly the bytes consumed from the
stream, the 20 bytes of the length field and the `N` bytes it declares; so two streams
that decode to the same package carry the same wire message. -/
theorem decode_encode_canonical (c : Conn) (p : Package) (hfull : readsInFull c)
    (hdec : (parsePackage c).1 = .ok p) :
    p.Bytes = wireMessage c ∧ p.Bytes.length = 20 + decVal ((streamBytes c.incoming).take 20) ∧
      ∀ c2 : Conn, readsInFull c2 → (parsePackage c2).1 = .ok p →
        wireMessage c2 = wireMessage c := by
  obtain ⟨a, b, d⟩ := Bytes_of_decoded c p hfull hdec
  refine ⟨a, by rw [b, d], ?_⟩
  intro c2 hfull2 hdec2
  rw [← (Bytes_of_decoded c2 p hfull2 hdec2).1, a]

theorem decode_encode_canonical_witness :
    (Package.mk 3 (ascii "ab")).Bytes =
      wireMessage (serverConn [.data (ascii "00000000000000000003"), .data (ascii "3abXYZ")]) :=
  (decode_encode_canonical
    (serverConn [.data (ascii "00000000000000000003"), .data (ascii "3abXYZ")])
    (Package.mk 3 (ascii "ab")) (by decide) (by decide)).1
end Com
